import Mathlib

/-!
Shallow embedding of the flowchart editor core of the `tool_belt` repository:
the `FlowchartEditor` model class and the geometric parts of `FlowchartCanvas`
(edge boundary intersection, `fitToScreen` bounds computation).

Modelling conventions:
* JS numbers are modelled as `ℚ` (all arithmetic in the embedded code is exact
  on rationals); JS strings as `String`; JS arrays as `List`.
* A JS object field that may be `undefined` on raw imported data is an `Option`.
  The diagram payload (`DiagramData`) carries every field the code reads,
  including the top-level `nodes`/`connections`/`questions` used by the
  legacy load branch; a well-formed diagram leaves those top-level fields
  absent.
* The JS field `from`/`to` of a connection are renamed `fromId`/`toId`
  (`from` is a Lean keyword); `type` keeps its name.
* Operations that can hit a JS `TypeError` (reading `.nodes` of an undefined
  section, calling `.map` on `undefined`, ...) return `Option`: `none` models
  an exception escaping to the caller.  Inside `loadFromJSON` the surrounding
  `try`/`catch` makes partially applied mutations observable, so there (and in
  `updateIdCounters`, which it calls) the state reached before the throw is
  returned together with an error flag, mirroring the source statement by
  statement.
* Pure view concerns (d3 rendering, DOM updates, notifications, analytics)
  have no model-state effect and are omitted; the `showNotification` call in
  the catch handler is modelled by the `Bool` error flag `loadFromJSON`
  returns.
-/

set_option maxRecDepth 10000

/-! ### Decimal digits: the `/entity-(\d+)/` + `parseInt` machinery -/

/-- Numeric value of an ASCII decimal digit character (`parseInt` on one digit). -/
def digitVal (c : Char) : Nat := c.toNat - 48

/-- Whether a character is an ASCII decimal digit (`\d` in the id regexes). -/
def isDigitCh (c : Char) : Bool := 48 ≤ c.toNat && c.toNat ≤ 57

/-- Decimal value of a digit run, most significant digit first (`parseInt`). -/
def digitsVal (cs : List Char) : Nat := cs.foldl (fun a c => a * 10 + digitVal c) 0

/-- Decimal digit characters of a natural number; fuel-based so it reduces
structurally (the fuel `n + 1` always suffices). -/
def toDigitsAux : Nat → Nat → List Char
  | 0, _ => []
  | fuel + 1, n =>
    if n < 10 then [Nat.digitChar n]
    else toDigitsAux fuel (n / 10) ++ [Nat.digitChar (n % 10)]

/-- Decimal rendering of a natural number, as produced by the template literal
interpolation of a JS integer counter. -/
def natRepr (n : Nat) : String := String.mk (toDigitsAux (n + 1) n)

/-- Strip an expected literal pattern from the front of a character list;
`none` when the pattern does not match. -/
def stripPat : List Char → List Char → Option (List Char)
  | [], cs => some cs
  | _ :: _, [] => none
  | p :: ps, c :: cs => if p = c then stripPat ps cs else none

/-- First match of the regex `pat(\d+)` in a character list, as a number:
at each position, try to match the literal `pat` followed by at least one
digit; on success parse the maximal digit run, otherwise advance one
character.  This is `s.match(/pat-(\d+)/)` + `parseInt(match[1])`. -/
def scanNum (pat : List Char) : List Char → Option Nat
  | [] => none
  | c :: cs =>
    match stripPat pat (c :: cs) with
    | some rest =>
      match rest.takeWhile isDigitCh with
      | [] => scanNum pat cs
      | d :: ds => some (digitsVal (d :: ds))
    | none => scanNum pat cs

/-- Numeric suffix of an entity id: the regex match result, or `0` when the
pattern does not occur (`match ? parseInt(match[1]) : 0`). -/
def idSuffix (pat : List Char) (s : String) : Nat := (scanNum pat s.data).getD 0

/-- The node id pattern `node-`. -/
def nodePat : List Char := "node-".data

/-- The connection id pattern `conn-`. -/
def connPat : List Char := "conn-".data

/-- The question id pattern `q-`. -/
def qPat : List Char := "q-".data

/-! ### Data model -/

/-- Per-node visual style (`style` object literal in `addNode`). -/
structure NodeStyle where
  backgroundColor : String
  borderColor : String
  textColor : String
deriving DecidableEq

/-- Per-node annotation (`metadata` object literal in `addNode`). -/
structure NodeMeta where
  category : String
  priority : String
  status : String
  note : String
deriving DecidableEq

/-- A flowchart node (`nodeData` shape). -/
structure Node where
  id : String
  type : String
  text : String
  x : ℚ
  y : ℚ
  width : ℚ
  height : ℚ
  style : NodeStyle
  metadata : NodeMeta
deriving DecidableEq

/-- Connection annotation (`metadata` object literal in `addConnection`). -/
structure ConnMeta where
  status : String
  note : String
deriving DecidableEq

/-- A connection; JS fields `from`/`to` are `fromId`/`toId` here. -/
structure Connection where
  id : String
  fromId : String
  toId : String
  label : String
  style : String
  metadata : ConnMeta
deriving DecidableEq

/-- A question; `answer` may be absent on imported data. -/
structure Question where
  id : String
  category : String
  text : String
  answer : Option String
deriving DecidableEq

/-- One flow-section (an element of `data.flowcharts`).  On raw imported data
any field may be absent, hence the `Option`s. -/
structure RawSection where
  id : Option String
  title : Option String
  description : Option String
  nodes : Option (List Node)
  connections : Option (List Connection)
  questions : Option (List Question)
deriving DecidableEq

/-- The diagram aggregate (`this.data`), which is also the import payload shape:
`loadFromJSON`'s versioned branch installs the payload object wholesale as
`this.data`, so the two are one JS object shape.  The top-level
`nodes`/`connections`/`questions` are only read by the legacy import branch. -/
structure DiagramData where
  version : Option Nat
  timestamp : Option String
  title : Option String
  description : Option String
  generalNotes : Option String
  flowcharts : Option (List RawSection)
  nodes : Option (List Node)
  connections : Option (List Connection)
  questions : Option (List Question)
deriving DecidableEq

/-- An in-progress connection gesture (`this.connectionInProgress`). -/
structure PendingConn where
  fromId : String
  fromNode : Node
deriving DecidableEq

/-- The editor's model state: owned data plus the id counters and the pending
connection slot.  Canvas-only view state (selection, zoom transform) is not
part of the model. -/
structure EditorState where
  data : DiagramData
  nextNodeId : Nat
  nextConnectionId : Nat
  nextQuestionId : Nat
  connectionInProgress : Option PendingConn
deriving DecidableEq

/-- The constructor's initial diagram state (`timestamp` comes from the clock,
passed in as `ts`). -/
def initState (ts : String) : EditorState :=
  { data :=
      { version := some 1
        timestamp := some ts
        title := some ("New Flowchart")
        description := some ("")
        generalNotes := some ("")
        flowcharts := some
          [{ id := some ("flowchart-1")
             title := some ("Main Process")
             description := some ("")
             nodes := some []
             connections := some []
             questions := some [] }]
        nodes := none
        connections := none
        questions := none }
    nextNodeId := 1
    nextConnectionId := 1
    nextQuestionId := 1
    connectionInProgress := none }

/-! ### Model operations (`FlowchartEditor` methods) -/

/-- `this.getCurrentFlowchart()` — `this.data.flowcharts[0]`; `none` when
`flowcharts` is absent or empty (reading `[0]` of `undefined` throws, an
empty array yields `undefined`). -/
def getCurrentFlowchart (st : EditorState) : Option RawSection :=
  match st.data.flowcharts with
  | some (fc :: _) => some fc
  | _ => none

/-- Replace section 0, keeping the rest; only called when section 0 exists. -/
def setSec0 (st : EditorState) (fc : RawSection) : EditorState :=
  match st.data.flowcharts with
  | some (_ :: rest) =>
    { st with data := { st.data with flowcharts := some (fc :: rest) } }
  | _ => st

/-- Update the first element satisfying `p` (JS mutates the object returned by
`Array.prototype.find`, i.e. the first match). -/
def updateFirst (p : α → Bool) (f : α → α) : List α → List α
  | [] => []
  | a :: as => if p a then f a :: as else a :: updateFirst p f as

/-- Apply `f` to section 0's node array; `none` models the `TypeError` when the
section or its `nodes` array is missing. -/
def withSec0Nodes (st : EditorState) (f : List Node → List Node) :
    Option EditorState :=
  match getCurrentFlowchart st with
  | some fc =>
    match fc.nodes with
    | some ns => some (setSec0 st { fc with nodes := some (f ns) })
    | none => none
  | none => none

/-- Apply `f` to section 0's connection array (same failure modes). -/
def withSec0Conns (st : EditorState) (f : List Connection → List Connection) :
    Option EditorState :=
  match getCurrentFlowchart st with
  | some fc =>
    match fc.connections with
    | some cs => some (setSec0 st { fc with connections := some (f cs) })
    | none => none
  | none => none

/-- `this.findNodeById(nodeId)` — outer `none` is the `TypeError` when the
section or node array is missing; otherwise the `Array.find` result. -/
def findNodeById (st : EditorState) (nodeId : String) : Option (Option Node) :=
  match getCurrentFlowchart st with
  | some fc => fc.nodes.map (fun ns => ns.find? (fun n => n.id == nodeId))
  | none => none

/-- `this.findConnectionById(connectionId)`. -/
def findConnectionById (st : EditorState) (connectionId : String) :
    Option (Option Connection) :=
  match getCurrentFlowchart st with
  | some fc => fc.connections.map (fun cs => cs.find? (fun c => c.id == connectionId))
  | none => none

/-- Default label text per node type (`getDefaultNodeText`). -/
def getDefaultNodeText (type : String) : String :=
  if type = "start" then ("Start")
  else if type = "process" then ("Process")
  else if type = "decision" then ("Decision?")
  else if type = "end" then ("End")
  else if type = "connector" then ("")
  else ("Node")

/-- Default size (width, height) per node type (`getDefaultNodeSize`). -/
def getDefaultNodeSize (type : String) : ℚ × ℚ :=
  if type = "start" then (100, 60)
  else if type = "process" then (120, 60)
  else if type = "decision" then (100, 80)
  else if type = "end" then (100, 60)
  else if type = "connector" then (30, 30)
  else (120, 60)

/-- Default background color per node type (`getDefaultNodeColor`). -/
def getDefaultNodeColor (type : String) : String :=
  if type = "start" then ("#e8f5e8")
  else if type = "process" then ("#e3f2fd")
  else if type = "decision" then ("#fff3e0")
  else if type = "end" then ("#fce4ec")
  else if type = "connector" then ("#f5f5f5")
  else ("#e3f2fd")

/-- `this.addNode(type, x, y)`: allocate `node-<nextNodeId>`, bump the counter,
derive defaults from the type, append to the active section's node list, and
return the created node. -/
def addNode (st : EditorState) (type : String) (x y : ℚ) :
    Option (EditorState × Node) :=
  let nodeId := "node-" ++ natRepr st.nextNodeId
  let nd : Node :=
    { id := nodeId
      type := type
      text := getDefaultNodeText type
      x := x
      y := y
      width := (getDefaultNodeSize type).1
      height := (getDefaultNodeSize type).2
      style :=
        { backgroundColor := getDefaultNodeColor type
          borderColor := "#1976d2"
          textColor := "#000" }
      metadata :=
        { category := "core"
          priority := "medium"
          status := "pending"
          note := "" } }
  (withSec0Nodes { st with nextNodeId := st.nextNodeId + 1 }
      (fun ns => ns ++ [nd])).map (fun st' => (st', nd))

/-- `this.updateNodePosition(nodeId, x, y)`: mutate the first node found with
that id; silently do nothing when no node matches. -/
def updateNodePosition (st : EditorState) (nodeId : String) (x y : ℚ) :
    Option EditorState :=
  withSec0Nodes st
    (updateFirst (fun n => n.id == nodeId) (fun n => { n with x := x, y := y }))

/-- `this.updateNodeText(nodeId, text)`. -/
def updateNodeText (st : EditorState) (nodeId text : String) :
    Option EditorState :=
  withSec0Nodes st
    (updateFirst (fun n => n.id == nodeId) (fun n => { n with text := text }))

/-- `this.updateNodeType(nodeId, type)`: also re-derives background color and
size from the new type. -/
def updateNodeType (st : EditorState) (nodeId type : String) :
    Option EditorState :=
  withSec0Nodes st
    (updateFirst (fun n => n.id == nodeId)
      (fun n =>
        { n with
          type := type
          style := { n.style with backgroundColor := getDefaultNodeColor type }
          width := (getDefaultNodeSize type).1
          height := (getDefaultNodeSize type).2 }))

/-- `this.updateNodeStatus(nodeId, status)`: plain field assignment, no guard
on the previous status. -/
def updateNodeStatus (st : EditorState) (nodeId status : String) :
    Option EditorState :=
  withSec0Nodes st
    (updateFirst (fun n => n.id == nodeId)
      (fun n => { n with metadata := { n.metadata with status := status } }))

/-- `this.updateNodeNotes(nodeId, notes)`. -/
def updateNodeNotes (st : EditorState) (nodeId notes : String) :
    Option EditorState :=
  withSec0Nodes st
    (updateFirst (fun n => n.id == nodeId)
      (fun n => { n with metadata := { n.metadata with note := notes } }))

/-- `this.deleteNode(nodeId)`: drop every node with that id and every
connection having it as either endpoint (unconditional cascade). -/
def deleteNode (st : EditorState) (nodeId : String) : Option EditorState :=
  match getCurrentFlowchart st with
  | some fc =>
    match fc.nodes, fc.connections with
    | some ns, some cs =>
      some (setSec0 st
        { fc with
          nodes := some (ns.filter (fun n => !(n.id == nodeId)))
          connections := some
            (cs.filter (fun c => !(c.fromId == nodeId) && !(c.toId == nodeId))) })
    | _, _ => none
  | none => none

/-- `this.startConnection(fromNode)`: record the pending connection gesture. -/
def startConnection (st : EditorState) (fromNode : Node) : EditorState :=
  { st with connectionInProgress := some { fromId := fromNode.id, fromNode := fromNode } }

/-- `this.addConnection(fromNodeId, toNodeId, label)`: allocate
`conn-<nextConnectionId>`, bump the counter, append.  Neither endpoint is
validated and `fromNodeId = toNodeId` is accepted. -/
def addConnection (st : EditorState) (fromNodeId toNodeId label : String) :
    Option (EditorState × Connection) :=
  let connectionData : Connection :=
    { id := "conn-" ++ natRepr st.nextConnectionId
      fromId := fromNodeId
      toId := toNodeId
      label := label
      style := "solid"
      metadata := { status := "pending", note := "" } }
  (withSec0Conns { st with nextConnectionId := st.nextConnectionId + 1 }
      (fun cs => cs ++ [connectionData])).map (fun st' => (st', connectionData))

/-- `this.completeConnection(toNode)`: only add an edge when a connection is
pending and its origin differs from the target node's id; always clear the
pending slot afterwards. -/
def completeConnection (st : EditorState) (toNode : Node) : Option EditorState :=
  match st.connectionInProgress with
  | some pc =>
    if pc.fromId = toNode.id then some { st with connectionInProgress := none }
    else
      (addConnection st pc.fromId toNode.id ("")).map
        (fun p => { p.1 with connectionInProgress := none })
  | none => some { st with connectionInProgress := none }

/-- `this.updateConnectionLabel(connectionId, label)`. -/
def updateConnectionLabel (st : EditorState) (connectionId label : String) :
    Option EditorState :=
  withSec0Conns st
    (updateFirst (fun c => c.id == connectionId) (fun c => { c with label := label }))

/-- `this.updateConnectionStyle(connectionId, style)`. -/
def updateConnectionStyle (st : EditorState) (connectionId style : String) :
    Option EditorState :=
  withSec0Conns st
    (updateFirst (fun c => c.id == connectionId) (fun c => { c with style := style }))

/-- `this.updateConnectionStatus(connectionId, status)`. -/
def updateConnectionStatus (st : EditorState) (connectionId status : String) :
    Option EditorState :=
  withSec0Conns st
    (updateFirst (fun c => c.id == connectionId)
      (fun c => { c with metadata := { c.metadata with status := status } }))

/-- `this.deleteConnection(connectionId)`. -/
def deleteConnection (st : EditorState) (connectionId : String) :
    Option EditorState :=
  withSec0Conns st (fun cs => cs.filter (fun c => !(c.id == connectionId)))

/-- `this.updateDescription(description)`. -/
def updateDescription (st : EditorState) (description : String) : EditorState :=
  { st with data := { st.data with description := some description } }

/-- `this.updateGeneralNotes(notes)`. -/
def updateGeneralNotes (st : EditorState) (notes : String) : EditorState :=
  { st with data := { st.data with generalNotes := some notes } }

/-- `this.clearAll()`: empty the active section's three lists; counters and the
diagram's scalar fields are untouched. -/
def clearAll (st : EditorState) : Option EditorState :=
  match getCurrentFlowchart st with
  | some fc =>
    some (setSec0 st
      { fc with nodes := some [], connections := some [], questions := some [] })
  | none => none

/-! ### Load / export -/

/-- Maximum numeric suffix over a list of ids, then `+ 1`
(`Math.max(0, ...ids) + 1`). -/
def nextCounter (pat : List Char) (ids : List String) : Nat :=
  (ids.map (idSuffix pat)).foldl max 0 + 1

/-- `this.updateIdCounters()`: recompute the three counters from the active
section, statement by statement.  The returned flag is `true` when a
`TypeError` is thrown (missing section or missing array); the returned state
is the one reached before the throw — `nextNodeId` is assigned before the
connection ids are scanned, so a throw on `connections` keeps the new
`nextNodeId`. -/
def updateIdCounters (st : EditorState) : EditorState × Bool :=
  match getCurrentFlowchart st with
  | none => (st, true)
  | some fc =>
    match fc.nodes with
    | none => (st, true)
    | some ns =>
      let st1 := { st with nextNodeId := nextCounter nodePat (ns.map Node.id) }
      match fc.connections with
      | none => (st1, true)
      | some cs =>
        let st2 :=
          { st1 with nextConnectionId := nextCounter connPat (cs.map Connection.id) }
        match fc.questions with
        | none => (st2, true)
        | some qs =>
          ({ st2 with nextQuestionId := nextCounter qPat (qs.map Question.id) },
           false)

/-- JS truthiness of `jsonData.version && jsonData.flowcharts`: `version`
present and nonzero, `flowcharts` present (any array is truthy). -/
def dTruthy (p : DiagramData) : Bool :=
  (match p.version with
   | some v => decide (v ≠ 0)
   | none => false) && p.flowcharts.isSome

/-- `this.loadFromJSON(jsonData)`: versioned payloads are installed wholesale
(`this.data = jsonData`) before the id counters are recomputed; legacy
payloads merge their top-level arrays (defaulting to empty) into section 0.
The whole body runs under `try`/`catch`, so no exception escapes; the `Bool`
result is `true` exactly when the catch handler ran (and the user was
notified), and the returned state is whatever the `try` block had reached. -/
def loadFromJSON (st : EditorState) (p : DiagramData) : EditorState × Bool :=
  if dTruthy p then
    updateIdCounters { st with data := p }
  else
    match st.data.flowcharts with
    | some (fc :: rest) =>
      let fc1 :=
        { fc with
          nodes := some (p.nodes.getD [])
          connections := some (p.connections.getD [])
          questions := some (p.questions.getD []) }
      updateIdCounters
        { st with data := { st.data with flowcharts := some (fc1 :: rest) } }
    | _ => (st, true)

/-- `this.exportToJSON()`: refresh `this.data.timestamp` to the export instant
and return a deep clone of the data (in this pure embedding the clone is the
value itself — a copy with no shared mutable state is automatic). -/
def exportToJSON (st : EditorState) (now : String) : EditorState × DiagramData :=
  let st1 := { st with data := { st.data with timestamp := some now } }
  (st1, st1.data)

/-! ### Canvas geometry (`FlowchartCanvas`) -/

/-- A 2D point in model space. -/
structure Point where
  x : ℚ
  y : ℚ
deriving DecidableEq

/-- Center of a node's bounding box. -/
def nodeCenter (n : Node) : Point :=
  { x := n.x + n.width / 2, y := n.y + n.height / 2 }

/-- The rectangle (default) branch of `getNodeEdgePoint`: intersection of the
ray from the node's center towards `targetPoint` with the axis-aligned box,
selecting the left/right edge when `|dx| * halfHeight > |dy| * halfWidth` and
the top/bottom edge otherwise.  This branch handles every node type other
than `start`, `end` (ellipse intersection, irrational trigonometry) and
`decision` — in particular `process`, `connector` and unknown types. -/
def rectEdgePoint (node : Node) (targetPoint : Point) : Point :=
  let centerX := node.x + node.width / 2
  let centerY := node.y + node.height / 2
  let dx := targetPoint.x - centerX
  let dy := targetPoint.y - centerY
  let rectHalfWidth := node.width / 2
  let rectHalfHeight := node.height / 2
  if |dx| * rectHalfHeight > |dy| * rectHalfWidth then
    let x := if dx > 0 then centerX + rectHalfWidth else centerX - rectHalfWidth
    let y := centerY + dy * rectHalfWidth / |dx|
    { x := x, y := y }
  else
    let y := if dy > 0 then centerY + rectHalfHeight else centerY - rectHalfHeight
    let x := centerX + dx * rectHalfHeight / |dy|
    { x := x, y := y }

/-- The two endpoints `calculateConnectionPath` computes for an edge between
two rectangle-branch nodes: each is the boundary intersection towards the
other node's center. -/
def connectionEndpointsRect (sourceNode targetNode : Node) : Point × Point :=
  (rectEdgePoint sourceNode (nodeCenter targetNode),
   rectEdgePoint targetNode (nodeCenter sourceNode))

/-- A d3 zoom transform `{k, x, y}`; it maps a model point `p` to the screen
point `p * k + (x, y)`.  `zoomIdentity.translate(tx, ty).scale(s)` is
`{k := s, x := tx, y := ty}`. -/
structure Transform where
  k : ℚ
  x : ℚ
  y : ℚ
deriving DecidableEq

/-- Minimum of a list of rationals with the head as the seed
(`Math.min(...xs)` on a nonempty spread; the empty case is unreachable under
`fitToScreen`'s zero-node guard). -/
def listMin : List ℚ → ℚ
  | [] => 0
  | a :: as => as.foldl min a

/-- Maximum, dually (`Math.max(...xs)`). -/
def listMax : List ℚ → ℚ
  | [] => 0
  | a :: as => as.foldl max a

/-- The bounds record `calculateBounds(nodes)` returns. -/
structure Bounds where
  minX : ℚ
  minY : ℚ
  width : ℚ
  height : ℚ
deriving DecidableEq

/-- `this.calculateBounds(nodes)`: axis-aligned bounding box of all node
boxes. -/
def calculateBounds (nodes : List Node) : Bounds :=
  let xs := nodes.map Node.x
  let ys := nodes.map Node.y
  let widths := nodes.map (fun n => n.x + n.width)
  let heights := nodes.map (fun n => n.y + n.height)
  let minX := listMin xs
  let minY := listMin ys
  let maxX := listMax widths
  let maxY := listMax heights
  { minX := minX, minY := minY, width := maxX - minX, height := maxY - minY }

/-- `this.fitToScreen()` as a function of the rendered node list, the svg
viewport size and the current transform: a no-op (current transform kept)
with zero nodes, otherwise the uniform scale fitting the padded bounding box
on both axes and the centering translation.  The animated transition is
modelled by its end transform. -/
def fitToScreen (nodes : List Node) (viewportW viewportH : ℚ)
    (current : Transform) : Transform :=
  match nodes with
  | [] => current
  | n :: rest =>
    let bounds := calculateBounds (n :: rest)
    let padding : ℚ := 50
    let scale :=
      min (viewportW / (bounds.width + padding * 2))
          (viewportH / (bounds.height + padding * 2))
    let translateX := (viewportW - bounds.width * scale) / 2 - bounds.minX * scale
    let translateY := (viewportH - bounds.height * scale) / 2 - bounds.minY * scale
    { k := scale, x := translateX, y := translateY }

/-! ### State views and operation sequences -/

/-- The active section's node list, as a view for stating properties (empty
when the section or the array is missing). -/
def nodesOf (st : EditorState) : List Node :=
  ((getCurrentFlowchart st).bind RawSection.nodes).getD []

/-- The active section's connection list, as a view. -/
def connsOf (st : EditorState) : List Connection :=
  ((getCurrentFlowchart st).bind RawSection.connections).getD []

/-- The active section's question list, as a view. -/
def questionsOf (st : EditorState) : List Question :=
  ((getCurrentFlowchart st).bind RawSection.questions).getD []

/-- One structural mutation of the node graph: the operations quantified over
by the duplicate-freedom and id-reuse claims. -/
inductive EOp where
  | add (type : String) (x y : ℚ)
  | del (nodeId : String)
  | clear
deriving DecidableEq

/-- Apply one operation (`none` models an escaping exception). -/
def applyEOp (st : EditorState) : EOp → Option EditorState
  | .add type x y => (addNode st type x y).map Prod.fst
  | .del nodeId => deleteNode st nodeId
  | .clear => clearAll st

/-- Apply a sequence of operations. -/
def applyEOps : EditorState → List EOp → Option EditorState
  | st, [] => some st
  | st, o :: os =>
    match applyEOp st o with
    | some st' => applyEOps st' os
    | none => none

/-- The node ids handed out by the `addNode` calls of an operation sequence, in
order (the allocation history of the sequence). -/
def allocIds : EditorState → List EOp → List String
  | _, [] => []
  | st, o :: os =>
    match applyEOp st o with
    | some st' =>
      (match o with
       | .add _ _ _ => ["node-" ++ natRepr st.nextNodeId]
       | _ => []) ++ allocIds st' os
    | none => []

/-- The editor states reachable from a fresh editor through its public
operations (for `Option`-valued operations, through their successful runs;
`loadFromJSON` is total and reachable with any payload). -/
inductive Reachable : EditorState → Prop where
  | init (ts : String) : Reachable (initState ts)
  | addNode {st st' nd} (type : String) (x y : ℚ) :
      Reachable st → addNode st type x y = some (st', nd) → Reachable st'
  | updateNodePosition {st st'} (nodeId : String) (x y : ℚ) :
      Reachable st → updateNodePosition st nodeId x y = some st' → Reachable st'
  | updateNodeText {st st'} (nodeId text : String) :
      Reachable st → updateNodeText st nodeId text = some st' → Reachable st'
  | updateNodeType {st st'} (nodeId type : String) :
      Reachable st → updateNodeType st nodeId type = some st' → Reachable st'
  | updateNodeStatus {st st'} (nodeId status : String) :
      Reachable st → updateNodeStatus st nodeId status = some st' → Reachable st'
  | updateNodeNotes {st st'} (nodeId notes : String) :
      Reachable st → updateNodeNotes st nodeId notes = some st' → Reachable st'
  | deleteNode {st st'} (nodeId : String) :
      Reachable st → deleteNode st nodeId = some st' → Reachable st'
  | startConnection {st} (fromNode : Node) :
      Reachable st → Reachable (startConnection st fromNode)
  | addConnection {st st' c} (fromNodeId toNodeId label : String) :
      Reachable st → addConnection st fromNodeId toNodeId label = some (st', c) →
      Reachable st'
  | completeConnection {st st'} (toNode : Node) :
      Reachable st → completeConnection st toNode = some st' → Reachable st'
  | updateConnectionLabel {st st'} (connectionId label : String) :
      Reachable st → updateConnectionLabel st connectionId label = some st' →
      Reachable st'
  | updateConnectionStyle {st st'} (connectionId style : String) :
      Reachable st → updateConnectionStyle st connectionId style = some st' →
      Reachable st'
  | updateConnectionStatus {st st'} (connectionId status : String) :
      Reachable st → updateConnectionStatus st connectionId status = some st' →
      Reachable st'
  | deleteConnection {st st'} (connectionId : String) :
      Reachable st → deleteConnection st connectionId = some st' → Reachable st'
  | updateDescription {st} (description : String) :
      Reachable st → Reachable (updateDescription st description)
  | updateGeneralNotes {st} (notes : String) :
      Reachable st → Reachable (updateGeneralNotes st notes)
  | clearAll {st st'} :
      Reachable st → clearAll st = some st' → Reachable st'
  | loadFromJSON {st} (p : DiagramData) :
      Reachable st → Reachable (loadFromJSON st p).1
  | exportToJSON {st} (now : String) :
      Reachable st → Reachable (exportToJSON st now).1

/-! ### Lemmas: decimal rendering and id-suffix parsing -/

theorem digitVal_digitChar {n : Nat} (h : n < 10) :
    digitVal (Nat.digitChar n) = n := by
  interval_cases n <;> decide

theorem isDigitCh_digitChar {n : Nat} (h : n < 10) :
    isDigitCh (Nat.digitChar n) = true := by
  interval_cases n <;> decide

theorem toDigitsAux_spec :
    ∀ (fuel n : Nat), n < 10 ^ fuel →
      (∀ c ∈ toDigitsAux fuel n, isDigitCh c = true) ∧
      ∀ a : Nat,
        (toDigitsAux fuel n).foldl (fun x c => x * 10 + digitVal c) a =
          a * 10 ^ (toDigitsAux fuel n).length + n := by
  intro fuel
  induction fuel with
  | zero =>
    intro n hn
    interval_cases n
    simp [toDigitsAux]
  | succ fuel ih =>
    intro n hn
    by_cases h10 : n < 10
    · refine ⟨?_, ?_⟩
      · intro c hc
        simp only [toDigitsAux, if_pos h10, List.mem_singleton] at hc
        subst hc
        exact isDigitCh_digitChar h10
      · intro a
        simp [toDigitsAux, if_pos h10, digitsVal, digitVal_digitChar h10]
    · have hdiv : n / 10 < 10 ^ fuel := by
        rw [Nat.div_lt_iff_lt_mul (by norm_num)]
        calc n < 10 ^ (fuel + 1) := hn
          _ = 10 ^ fuel * 10 := by ring
      obtain ⟨hdig, hfold⟩ := ih (n / 10) hdiv
      refine ⟨?_, ?_⟩
      · intro c hc
        simp only [toDigitsAux, if_neg h10, List.mem_append, List.mem_singleton] at hc
        rcases hc with hc | hc
        · exact hdig c hc
        · subst hc
          exact isDigitCh_digitChar (Nat.mod_lt n (by norm_num))
      · intro a
        simp only [toDigitsAux, if_neg h10, List.foldl_append, List.foldl_cons,
          List.foldl_nil, List.length_append, List.length_singleton]
        rw [hfold a, digitVal_digitChar (Nat.mod_lt n (by norm_num))]
        have hnm := Nat.div_add_mod n 10
        calc (a * 10 ^ (toDigitsAux fuel (n / 10)).length + n / 10) * 10 + n % 10
            = a * (10 ^ (toDigitsAux fuel (n / 10)).length * 10) +
                (10 * (n / 10) + n % 10) := by ring
          _ = a * 10 ^ ((toDigitsAux fuel (n / 10)).length + 1) + n := by
              rw [pow_succ]
              omega

theorem n_lt_ten_pow_succ (n : Nat) : n < 10 ^ (n + 1) :=
  lt_of_lt_of_le (Nat.lt_pow_self (by norm_num) n)
    (Nat.pow_le_pow_right (by norm_num) (Nat.le_succ n))

theorem digitsVal_natRepr (n : Nat) : digitsVal (natRepr n).data = n := by
  have h := (toDigitsAux_spec (n + 1) n (n_lt_ten_pow_succ n)).2 0
  simpa [natRepr, digitsVal] using h

theorem natRepr_all_digits (n : Nat) :
    ∀ c ∈ (natRepr n).data, isDigitCh c = true := by
  have h := (toDigitsAux_spec (n + 1) n (n_lt_ten_pow_succ n)).1
  simpa [natRepr] using h

theorem natRepr_ne_nil (n : Nat) : (natRepr n).data ≠ [] := by
  show toDigitsAux (n + 1) n ≠ []
  by_cases h10 : n < 10 <;> simp [toDigitsAux, h10]

theorem strData_append (a b : String) : (a ++ b).data = a.data ++ b.data := rfl

theorem stripPat_append (ps rest : List Char) :
    stripPat ps (ps ++ rest) = some rest := by
  induction ps with
  | nil => rfl
  | cons p ps ih => simp [stripPat, ih]

theorem takeWhile_all {p : Char → Bool} :
    ∀ l : List Char, (∀ c ∈ l, p c = true) → l.takeWhile p = l := by
  intro l
  induction l with
  | nil => intro _; rfl
  | cons c cs ih =>
    intro h
    rw [List.takeWhile_cons, if_pos (h c (List.mem_cons_self c cs))]
    rw [ih (fun x hx => h x (List.mem_cons_of_mem c hx))]

theorem scanNum_append_digits (p : Char) (ps ds : List Char) (hds : ds ≠ [])
    (hdig : ∀ c ∈ ds, isDigitCh c = true) :
    scanNum (p :: ps) ((p :: ps) ++ ds) = some (digitsVal ds) := by
  have hstrip : stripPat (p :: ps) ((p :: ps) ++ ds) = some ds :=
    stripPat_append (p :: ps) ds
  cases ds with
  | nil => exact absurd rfl hds
  | cons d ds' =>
    show scanNum (p :: ps) (p :: (ps ++ d :: ds')) = some (digitsVal (d :: ds'))
    rw [scanNum]
    have : p :: (ps ++ d :: ds') = (p :: ps) ++ d :: ds' := rfl
    rw [this, hstrip]
    simp only [takeWhile_all (d :: ds') hdig]

theorem idSuffix_node_repr (k : Nat) :
    idSuffix nodePat ("node-" ++ natRepr k) = k := by
  show (scanNum nodePat ("node-" ++ natRepr k).data).getD 0 = k
  rw [strData_append]
  have : nodePat = 'n' :: "ode-".data := rfl
  rw [show ("node-" : String).data = nodePat from rfl, this,
    scanNum_append_digits 'n' ("ode-".data) (natRepr k).data (natRepr_ne_nil k)
      (natRepr_all_digits k)]
  simp [digitsVal_natRepr]

theorem node_repr_inj {a b : Nat}
    (h : "node-" ++ natRepr a = "node-" ++ natRepr b) : a = b := by
  have := congrArg (idSuffix nodePat) h
  rwa [idSuffix_node_repr, idSuffix_node_repr] at this

/-! ### Lemmas: folds, first-update, filters -/

theorem foldl_max_ge_init : ∀ (l : List Nat) (a : Nat), a ≤ l.foldl max a := by
  intro l
  induction l with
  | nil => intro a; exact le_refl a
  | cons x xs ih =>
    intro a
    exact le_trans (le_max_left a x) (ih (max a x))

theorem foldl_max_ge_mem :
    ∀ (l : List Nat) (a : Nat), ∀ x ∈ l, x ≤ l.foldl max a := by
  intro l
  induction l with
  | nil => intro a x hx; exact absurd hx (List.not_mem_nil x)
  | cons y ys ih =>
    intro a x hx
    rcases List.mem_cons.mp hx with h | h
    · subst h
      exact le_trans (le_max_right a x) (foldl_max_ge_init ys (max a x))
    · exact ih (max a y) x h

theorem foldl_min_le_init {α : Type} [LinearOrder α] :
    ∀ (l : List α) (a : α), l.foldl min a ≤ a := by
  intro l
  induction l with
  | nil => intro a; exact le_refl a
  | cons x xs ih =>
    intro a
    exact le_trans (ih (min a x)) (min_le_left a x)

theorem foldl_min_le_mem {α : Type} [LinearOrder α] :
    ∀ (l : List α) (a : α), ∀ x ∈ l, l.foldl min a ≤ x := by
  intro l
  induction l with
  | nil => intro a x hx; exact absurd hx (List.not_mem_nil x)
  | cons y ys ih =>
    intro a x hx
    rcases List.mem_cons.mp hx with h | h
    · subst h
      exact le_trans (foldl_min_le_init ys (min a x)) (min_le_right a x)
    · exact ih (min a y) x h

theorem foldl_qmax_ge_init {α : Type} [LinearOrder α] :
    ∀ (l : List α) (a : α), a ≤ l.foldl max a := by
  intro l
  induction l with
  | nil => intro a; exact le_refl a
  | cons x xs ih =>
    intro a
    exact le_trans (le_max_left a x) (ih (max a x))

theorem foldl_qmax_ge_mem {α : Type} [LinearOrder α] :
    ∀ (l : List α) (a : α), ∀ x ∈ l, x ≤ l.foldl max a := by
  intro l
  induction l with
  | nil => intro a x hx; exact absurd hx (List.not_mem_nil x)
  | cons y ys ih =>
    intro a x hx
    rcases List.mem_cons.mp hx with h | h
    · subst h
      exact le_trans (le_max_right a x) (foldl_qmax_ge_init ys (max a x))
    · exact ih (max a y) x h

theorem listMin_le {l : List ℚ} (hl : l ≠ []) : ∀ x ∈ l, listMin l ≤ x := by
  cases l with
  | nil => exact absurd rfl hl
  | cons a as =>
    intro x hx
    rcases List.mem_cons.mp hx with h | h
    · subst h
      exact foldl_min_le_init as x
    · exact foldl_min_le_mem as a x h

theorem listMax_ge {l : List ℚ} (hl : l ≠ []) : ∀ x ∈ l, x ≤ listMax l := by
  cases l with
  | nil => exact absurd rfl hl
  | cons a as =>
    intro x hx
    rcases List.mem_cons.mp hx with h | h
    · subst h
      exact foldl_qmax_ge_init as x
    · exact foldl_qmax_ge_mem as a x h

theorem updateFirst_of_none {α : Type} (p : α → Bool) (f : α → α) :
    ∀ l : List α, (∀ x ∈ l, p x = false) → updateFirst p f l = l := by
  intro l
  induction l with
  | nil => intro _; rfl
  | cons a as ih =>
    intro h
    rw [updateFirst, if_neg (by simp [h a (List.mem_cons_self a as)]),
      ih (fun x hx => h x (List.mem_cons_of_mem a hx))]

theorem find?_updateFirst {α : Type} (p : α → Bool) (f : α → α)
    (hf : ∀ a, p a = true → p (f a) = true) :
    ∀ l : List α, (updateFirst p f l).find? p = (l.find? p).map f := by
  intro l
  induction l with
  | nil => rfl
  | cons a as ih =>
    by_cases hpa : p a = true
    · rw [updateFirst, if_pos hpa, List.find?_cons_of_pos _ (hf a hpa),
        List.find?_cons_of_pos _ hpa, Option.map_some']
    · have hpa' : ¬ p a = true := hpa
      rw [updateFirst, if_neg hpa', List.find?_cons_of_neg _ hpa',
        List.find?_cons_of_neg _ hpa', ih]

theorem filter_eq_self_of_all {α : Type} (p : α → Bool) :
    ∀ l : List α, (∀ x ∈ l, p x = true) → l.filter p = l := by
  intro l
  induction l with
  | nil => intro _; rfl
  | cons a as ih =>
    intro h
    rw [List.filter_cons, if_pos (h a (List.mem_cons_self a as)),
      ih (fun x hx => h x (List.mem_cons_of_mem a hx))]
/-! ### Lemmas: state inversions -/

theorem getCurrentFlowchart_inv {st : EditorState} {fc : RawSection}
    (h : getCurrentFlowchart st = some fc) :
    ∃ rest, st.data.flowcharts = some (fc :: rest) := by
  unfold getCurrentFlowchart at h
  split at h
  · next fc' rest heq =>
    exact ⟨rest, by rw [heq, Option.some_inj.mp h]⟩
  · exact absurd h (by simp)

theorem withSec0Nodes_eq_some {st st' : EditorState} {f : List Node → List Node}
    (h : withSec0Nodes st f = some st') :
    ∃ fc rest ns, st.data.flowcharts = some (fc :: rest) ∧ fc.nodes = some ns ∧
      st' = { st with data := { st.data with
        flowcharts := some ({ fc with nodes := some (f ns) } :: rest) } } := by
  unfold withSec0Nodes at h
  split at h
  · next fc hfc =>
    split at h
    · next ns hns =>
      obtain ⟨rest, hrest⟩ := getCurrentFlowchart_inv hfc
      refine ⟨fc, rest, ns, hrest, hns, ?_⟩
      have h' := Option.some_inj.mp h
      rw [← h']
      unfold setSec0
      rw [hrest]
    · exact absurd h (by simp)
  · exact absurd h (by simp)

theorem withSec0Conns_eq_some {st st' : EditorState}
    {f : List Connection → List Connection}
    (h : withSec0Conns st f = some st') :
    ∃ fc rest cs, st.data.flowcharts = some (fc :: rest) ∧
      fc.connections = some cs ∧
      st' = { st with data := { st.data with
        flowcharts := some ({ fc with connections := some (f cs) } :: rest) } } := by
  unfold withSec0Conns at h
  split at h
  · next fc hfc =>
    split at h
    · next cs hcs =>
      obtain ⟨rest, hrest⟩ := getCurrentFlowchart_inv hfc
      refine ⟨fc, rest, cs, hrest, hcs, ?_⟩
      have h' := Option.some_inj.mp h
      rw [← h']
      unfold setSec0
      rw [hrest]
    · exact absurd h (by simp)
  · exact absurd h (by simp)

theorem deleteNode_eq_some {st st' : EditorState} {nodeId : String}
    (h : deleteNode st nodeId = some st') :
    ∃ fc rest ns cs, st.data.flowcharts = some (fc :: rest) ∧
      fc.nodes = some ns ∧ fc.connections = some cs ∧
      st' = { st with data := { st.data with
        flowcharts := some
          ({ fc with
             nodes := some (ns.filter (fun n => !(n.id == nodeId)))
             connections := some (cs.filter
               (fun c => !(c.fromId == nodeId) && !(c.toId == nodeId))) }
            :: rest) } } := by
  unfold deleteNode at h
  split at h
  · next fc hfc =>
    split at h
    · next ns cs hns hcs =>
      obtain ⟨rest, hrest⟩ := getCurrentFlowchart_inv hfc
      refine ⟨fc, rest, ns, cs, hrest, hns, hcs, ?_⟩
      have h' := Option.some_inj.mp h
      rw [← h']
      unfold setSec0
      rw [hrest]
    · next hne => exact absurd h (by simp)
  · exact absurd h (by simp)

theorem clearAll_eq_some {st st' : EditorState}
    (h : clearAll st = some st') :
    ∃ fc rest, st.data.flowcharts = some (fc :: rest) ∧
      st' = { st with data := { st.data with
        flowcharts := some
          ({ fc with
             nodes := some []
             connections := some []
             questions := some [] } :: rest) } } := by
  unfold clearAll at h
  split at h
  · next fc hfc =>
    obtain ⟨rest, hrest⟩ := getCurrentFlowchart_inv hfc
    refine ⟨fc, rest, hrest, ?_⟩
    have h' := Option.some_inj.mp h
    rw [← h']
    unfold setSec0
    rw [hrest]
  · exact absurd h (by simp)

theorem addNode_eq_some {st st' : EditorState} {nd : Node} {type : String}
    {x y : ℚ} (h : addNode st type x y = some (st', nd)) :
    nd = { id := "node-" ++ natRepr st.nextNodeId
           type := type
           text := getDefaultNodeText type
           x := x
           y := y
           width := (getDefaultNodeSize type).1
           height := (getDefaultNodeSize type).2
           style := { backgroundColor := getDefaultNodeColor type
                      borderColor := "#1976d2"
                      textColor := "#000" }
           metadata := { category := "core"
                         priority := "medium"
                         status := "pending"
                         note := "" } } ∧
    ∃ fc rest ns, st.data.flowcharts = some (fc :: rest) ∧ fc.nodes = some ns ∧
      st' = { st with
        nextNodeId := st.nextNodeId + 1
        data := { st.data with
          flowcharts := some ({ fc with nodes := some (ns ++ [nd]) } :: rest) } } := by
  simp only [addNode, Option.map_eq_some'] at h
  obtain ⟨stw, hw, hpair⟩ := h
  simp only [Prod.mk.injEq] at hpair
  obtain ⟨hst', hnd⟩ := hpair
  subst hst'
  subst hnd
  refine ⟨rfl, ?_⟩
  obtain ⟨fc, rest, ns, hrest, hns, hstw⟩ := withSec0Nodes_eq_some hw
  exact ⟨fc, rest, ns, hrest, hns, hstw⟩

theorem addConnection_eq_some {st st' : EditorState} {c : Connection}
    {fromNodeId toNodeId label : String}
    (h : addConnection st fromNodeId toNodeId label = some (st', c)) :
    c = { id := "conn-" ++ natRepr st.nextConnectionId
          fromId := fromNodeId
          toId := toNodeId
          label := label
          style := "solid"
          metadata := { status := "pending", note := "" } } ∧
    ∃ fc rest cs, st.data.flowcharts = some (fc :: rest) ∧
      fc.connections = some cs ∧
      st' = { st with
        nextConnectionId := st.nextConnectionId + 1
        data := { st.data with
          flowcharts := some
            ({ fc with connections := some (cs ++ [c]) } :: rest) } } := by
  simp only [addConnection, Option.map_eq_some'] at h
  obtain ⟨stw, hw, hpair⟩ := h
  simp only [Prod.mk.injEq] at hpair
  obtain ⟨hst', hc⟩ := hpair
  subst hst'
  subst hc
  refine ⟨rfl, ?_⟩
  obtain ⟨fc, rest, cs, hrest, hcs, hstw⟩ := withSec0Conns_eq_some hw
  exact ⟨fc, rest, cs, hrest, hcs, hstw⟩

/-! ### Geometry fixtures for the concrete instances of C5 and C6 -/

/-- A `process` node (default size 120×60) whose center is `(0, 0)`. -/
def procNodeA : Node :=
  { id := "node-1"
    type := "process"
    text := "Process"
    x := -60
    y := -30
    width := 120
    height := 60
    style := { backgroundColor := "#e3f2fd", borderColor := "#1976d2",
               textColor := "#000" }
    metadata := { category := "core", priority := "medium", status := "pending",
                  note := "" } }

/-- A `process` node (default size 120×60) whose center is `(200, 0)`. -/
def procNodeB : Node :=
  { id := "node-2"
    type := "process"
    text := "Process"
    x := 140
    y := -30
    width := 120
    height := 60
    style := { backgroundColor := "#e3f2fd", borderColor := "#1976d2",
               textColor := "#000" }
    metadata := { category := "core", priority := "medium", status := "pending",
                  note := "" } }

/-- A node at `(10, 10)` of size `(100, 60)` for the `fitToScreen` instance. -/
def fitNode : Node :=
  { id := "node-1"
    type := "process"
    text := "Process"
    x := 10
    y := 10
    width := 100
    height := 60
    style := { backgroundColor := "#e3f2fd", borderColor := "#1976d2",
               textColor := "#000" }
    metadata := { category := "core", priority := "medium", status := "pending",
                  note := "" } }

/-- C5: for every node handled by the rectangle branch of the edge-boundary
computation, the boundary point is selected by comparing `|dx| * halfHeight`
with `|dy| * halfWidth`: in the first case the point's x-coordinate is on the
left or right edge (by the sign of `dx`) and its y-coordinate stays within the
box's vertical extent; otherwise the point's y-coordinate is on the top or
bottom edge (by the sign of `dy`) and its x-coordinate stays within the box's
horizontal extent (for the degenerate center-to-center case both offsets are
zero, excluded here by the `dx ≠ 0 ∨ dy ≠ 0` hypothesis).  Moreover, for the
two `process` nodes of size 120×60 centered at `(0,0)` and `(200,0)`, the
edge endpoints computed by `calculateConnectionPath` are `(60,0)` and
`(140,0)`. -/
theorem C5_rect_edge_selection (node : Node) (targetPoint : Point)
    (hw : 0 < node.width) (hh : 0 < node.height) :
    ((|targetPoint.x - (node.x + node.width / 2)| * (node.height / 2) >
        |targetPoint.y - (node.y + node.height / 2)| * (node.width / 2) →
      (rectEdgePoint node targetPoint).x =
        (if targetPoint.x - (node.x + node.width / 2) > 0
         then node.x + node.width / 2 + node.width / 2
         else node.x + node.width / 2 - node.width / 2) ∧
      |(rectEdgePoint node targetPoint).y - (node.y + node.height / 2)| ≤
        node.height / 2) ∧
     (¬ (|targetPoint.x - (node.x + node.width / 2)| * (node.height / 2) >
          |targetPoint.y - (node.y + node.height / 2)| * (node.width / 2)) →
      (targetPoint.x - (node.x + node.width / 2) ≠ 0 ∨
       targetPoint.y - (node.y + node.height / 2) ≠ 0) →
      (rectEdgePoint node targetPoint).y =
        (if targetPoint.y - (node.y + node.height / 2) > 0
         then node.y + node.height / 2 + node.height / 2
         else node.y + node.height / 2 - node.height / 2) ∧
      |(rectEdgePoint node targetPoint).x - (node.x + node.width / 2)| ≤
        node.width / 2)) ∧
    connectionEndpointsRect procNodeA procNodeB =
      ({ x := 60, y := 0 }, { x := 140, y := 0 }) := by
  have hw2 : 0 < node.width / 2 := by linarith
  have hh2 : 0 < node.height / 2 := by linarith
  refine ⟨⟨?_, ?_⟩, by norm_num [connectionEndpointsRect, rectEdgePoint, nodeCenter, procNodeA, procNodeB, abs_of_nonneg, Prod.ext_iff]⟩
  · intro hgt
    have hdx : targetPoint.x - (node.x + node.width / 2) ≠ 0 := by
      intro h0
      rw [h0, abs_zero, zero_mul] at hgt
      have := mul_nonneg (abs_nonneg (targetPoint.y - (node.y + node.height / 2)))
        (le_of_lt hw2)
      linarith
    have habs : 0 < |targetPoint.x - (node.x + node.width / 2)| := abs_pos.mpr hdx
    constructor
    · simp only [rectEdgePoint, if_pos hgt]
    · simp only [rectEdgePoint, if_pos hgt]
      have heq : node.y + node.height / 2 +
          (targetPoint.y - (node.y + node.height / 2)) * (node.width / 2) /
            |targetPoint.x - (node.x + node.width / 2)| -
          (node.y + node.height / 2) =
          (targetPoint.y - (node.y + node.height / 2)) * (node.width / 2) /
            |targetPoint.x - (node.x + node.width / 2)| := by ring
      rw [heq, abs_div, abs_mul, abs_abs, abs_of_pos hw2,
        div_le_iff₀ habs]
      nlinarith [hgt]
  · intro hle hne
    have hdy : targetPoint.y - (node.y + node.height / 2) ≠ 0 := by
      intro h0
      rw [h0, abs_zero, zero_mul] at hle
      push_neg at hle
      have hx0 : |targetPoint.x - (node.x + node.width / 2)| = 0 := by
        have := abs_nonneg (targetPoint.x - (node.x + node.width / 2))
        nlinarith
      rcases hne with hxne | hyne
      · exact hxne (abs_eq_zero.mp hx0)
      · exact hyne h0
    have habs : 0 < |targetPoint.y - (node.y + node.height / 2)| := abs_pos.mpr hdy
    constructor
    · simp only [rectEdgePoint, if_neg hle]
    · simp only [rectEdgePoint, if_neg hle]
      have heq : node.x + node.width / 2 +
          (targetPoint.x - (node.x + node.width / 2)) * (node.height / 2) /
            |targetPoint.y - (node.y + node.height / 2)| -
          (node.x + node.width / 2) =
          (targetPoint.x - (node.x + node.width / 2)) * (node.height / 2) /
            |targetPoint.y - (node.y + node.height / 2)| := by ring
      rw [heq, abs_div, abs_mul, abs_abs, abs_of_pos hh2,
        div_le_iff₀ habs]
      push_neg at hle
      nlinarith [hle]

/-- Witness for C5: instantiated at the two concrete `process` nodes. -/
theorem C5_rect_edge_selection_witness :
    connectionEndpointsRect procNodeA procNodeB =
      ({ x := 60, y := 0 }, { x := 140, y := 0 }) :=
  (C5_rect_edge_selection procNodeA { x := 200, y := 0 }
    (by norm_num [procNodeA]) (by norm_num [procNodeA])).2

/-- C6: `fitToScreen` with zero nodes keeps the current transform; with at
least one node it picks the uniform scale
`min (vw / (width + 2·50)) (vh / (height + 2·50))` over the bounding box of
all node boxes (the box indeed encloses every node), and the resulting
transform maps the box's center (equivalently the padded box's center) to
the viewport center; on the single node at `(10,10)` of size `(100,60)` in
an 800×600 viewport the end transform is
`{k := 15/4, x := 175, y := 150}` with `15/4 = min (800/200) (600/160)`. -/
theorem C6_fitToScreen (nodes : List Node) (viewportW viewportH : ℚ)
    (current : Transform) (hne : nodes ≠ []) :
    fitToScreen [] viewportW viewportH current = current ∧
    (fitToScreen nodes viewportW viewportH current).k =
      min (viewportW / ((calculateBounds nodes).width + 50 * 2))
          (viewportH / ((calculateBounds nodes).height + 50 * 2)) ∧
    ((calculateBounds nodes).minX + (calculateBounds nodes).width / 2) *
        (fitToScreen nodes viewportW viewportH current).k +
        (fitToScreen nodes viewportW viewportH current).x = viewportW / 2 ∧
    ((calculateBounds nodes).minY + (calculateBounds nodes).height / 2) *
        (fitToScreen nodes viewportW viewportH current).k +
        (fitToScreen nodes viewportW viewportH current).y = viewportH / 2 ∧
    (∀ n ∈ nodes,
      (calculateBounds nodes).minX ≤ n.x ∧
      n.x + n.width ≤ (calculateBounds nodes).minX + (calculateBounds nodes).width ∧
      (calculateBounds nodes).minY ≤ n.y ∧
      n.y + n.height ≤
        (calculateBounds nodes).minY + (calculateBounds nodes).height) ∧
    fitToScreen [fitNode] 800 600 current = { k := 15/4, x := 175, y := 150 } ∧
    (15 / 4 : ℚ) = min (800 / (100 + 2 * 50)) (600 / (60 + 2 * 50)) := by
  obtain ⟨n0, rest, rfl⟩ : ∃ n0 rest, nodes = n0 :: rest := by
    cases nodes with
    | nil => exact absurd rfl hne
    | cons a as => exact ⟨a, as, rfl⟩
  refine ⟨rfl, ?_, ?_, ?_, ?_, ?_, by norm_num⟩
  · simp only [fitToScreen]
  · simp only [fitToScreen]
    ring
  · simp only [fitToScreen]
    ring
  · intro n hn
    have hminx : (calculateBounds (n0 :: rest)).minX ≤ n.x := by
      simp only [calculateBounds]
      exact listMin_le (by simp) n.x (List.mem_map_of_mem Node.x hn)
    have hminy : (calculateBounds (n0 :: rest)).minY ≤ n.y := by
      simp only [calculateBounds]
      exact listMin_le (by simp) n.y (List.mem_map_of_mem Node.y hn)
    have hmaxx : n.x + n.width ≤
        (calculateBounds (n0 :: rest)).minX + (calculateBounds (n0 :: rest)).width := by
      have hx := listMax_ge (l := (n0 :: rest).map (fun n => n.x + n.width))
        (by simp) (n.x + n.width)
        (List.mem_map_of_mem (fun n => n.x + n.width) hn)
      simp only [calculateBounds]
      linarith
    have hmaxy : n.y + n.height ≤
        (calculateBounds (n0 :: rest)).minY + (calculateBounds (n0 :: rest)).height := by
      have hy := listMax_ge (l := (n0 :: rest).map (fun n => n.y + n.height))
        (by simp) (n.y + n.height)
        (List.mem_map_of_mem (fun n => n.y + n.height) hn)
      simp only [calculateBounds]
      linarith
    exact ⟨hminx, hmaxx, hminy, hmaxy⟩
  · norm_num [fitToScreen, calculateBounds, listMin, listMax, fitNode,
      Transform.mk.injEq]

/-- Witness for C6: instantiated at the single concrete node. -/
theorem C6_fitToScreen_witness :
    fitToScreen [fitNode] 800 600 { k := 1, x := 0, y := 0 } =
      { k := 15 / 4, x := 175, y := 150 } :=
  (C6_fitToScreen [fitNode] 800 600 { k := 1, x := 0, y := 0 }
    (by simp)).2.2.2.2.2.1

/-! ### View computation helpers -/

theorem connsOf_eq {st : EditorState} {fc : RawSection} {rest : List RawSection}
    (hrest : st.data.flowcharts = some (fc :: rest)) :
    connsOf st = fc.connections.getD [] := by
  simp [connsOf, getCurrentFlowchart, hrest]

theorem nodesOf_eq {st : EditorState} {fc : RawSection} {rest : List RawSection}
    (hrest : st.data.flowcharts = some (fc :: rest)) :
    nodesOf st = fc.nodes.getD [] := by
  simp [nodesOf, getCurrentFlowchart, hrest]

theorem questionsOf_eq {st : EditorState} {fc : RawSection}
    {rest : List RawSection}
    (hrest : st.data.flowcharts = some (fc :: rest)) :
    questionsOf st = fc.questions.getD [] := by
  simp [questionsOf, getCurrentFlowchart, hrest]

/-- C8: `updateNodeStatus` on an existing node overwrites `metadata.status`
with the given value whatever the previous status was (the hypotheses place
no constraint on `nd.metadata.status`, so in particular `approved` may be set
directly to `rejected`), and `addNode` / `addConnection` always create their
entity with initial status `pending`. -/
theorem C8_unguarded_status (st : EditorState) (nodeId status : String)
    (st' : EditorState) (nd : Node)
    (hupd : updateNodeStatus st nodeId status = some st')
    (hfind : findNodeById st nodeId = some (some nd)) :
    findNodeById st' nodeId =
      some (some { nd with metadata := { nd.metadata with status := status } }) ∧
    (∀ st2 type x y st3 n2, addNode st2 type x y = some (st3, n2) →
       n2.metadata.status = "pending") ∧
    (∀ st2 a b lab st3 c, addConnection st2 a b lab = some (st3, c) →
       c.metadata.status = "pending") := by
  refine ⟨?_, ?_, ?_⟩
  · obtain ⟨fc, rest, ns, hrest, hns, hst'⟩ := withSec0Nodes_eq_some hupd
    have hgc : getCurrentFlowchart st = some fc := by
      simp [getCurrentFlowchart, hrest]
    simp only [findNodeById, hgc, hns, Option.map_some', Option.some_inj] at hfind
    subst hst'
    simp only [findNodeById, getCurrentFlowchart, Option.map_some',
      Option.some_inj]
    rw [find?_updateFirst (fun n => n.id == nodeId)
      (fun n => { n with metadata := { n.metadata with status := status } })
      (fun a ha => ha) ns, hfind, Option.map_some']
  · intro st2 type x y st3 n2 hadd
    rw [(addNode_eq_some hadd).1]
  · intro st2 a b lab st3 c hadd
    rw [(addConnection_eq_some hadd).1]

/-- The initial state with its single node forced to status `approved`. -/
def stApproved : EditorState :=
  { initState ("t0") with
    data := { (initState ("t0")).data with
      flowcharts := some
        [{ id := some ("flowchart-1")
           title := some ("Main Process")
           description := some ("")
           nodes := some [{ procNodeA with
             metadata := { procNodeA.metadata with status := "approved" } }]
           connections := some []
           questions := some [] }] } }

/-- The state after setting that node's status straight to `rejected`. -/
def stRejected : EditorState :=
  (updateNodeStatus stApproved ("node-1") ("rejected")).getD (initState ("t0"))

/-- Witness for C8: in a state whose single node is `approved`, setting the
status directly to `rejected` succeeds, skipping `pending`. -/
theorem C8_unguarded_status_witness :
    findNodeById stRejected ("node-1") =
      some (some { procNodeA with
        metadata := { procNodeA.metadata with status := "rejected" } }) := by
  have h := C8_unguarded_status stApproved ("node-1") ("rejected") stRejected
    { procNodeA with
      metadata := { procNodeA.metadata with status := "approved" } }
    (by decide) (by decide)
  exact h.1

/-- C9: completing a connect gesture clears the pending slot; when the mouseup
target is the originating node itself the connection list is unchanged (the
pending connection is discarded); when it is a different node exactly the new
edge from the pending origin to the target is appended — so the gesture never
appends a self-loop, although `addConnection` itself happily appends an edge
with equal endpoints. -/
theorem C9_gesture_no_selfloop (st : EditorState) (toNode : Node)
    (st' : EditorState) (hcc : completeConnection st toNode = some st') :
    st'.connectionInProgress = none ∧
    (∀ pc, st.connectionInProgress = some pc → pc.fromId = toNode.id →
       st' = { st with connectionInProgress := none }) ∧
    (∀ pc, st.connectionInProgress = some pc → pc.fromId ≠ toNode.id →
       connsOf st' = connsOf st ++
         [{ id := "conn-" ++ natRepr st.nextConnectionId
            fromId := pc.fromId
            toId := toNode.id
            label := ""
            style := "solid"
            metadata := { status := "pending", note := "" } }]) ∧
    (connsOf st' = connsOf st ∨
     ∃ c, connsOf st' = connsOf st ++ [c] ∧ c.fromId ≠ c.toId) ∧
    (∀ st2 fid lab st3 c, addConnection st2 fid fid lab = some (st3, c) →
       c.fromId = c.toId ∧ connsOf st3 = connsOf st2 ++ [c]) := by
  have hpart5 : ∀ st2 fid lab st3 c,
      addConnection st2 fid fid lab = some (st3, c) →
      c.fromId = c.toId ∧ connsOf st3 = connsOf st2 ++ [c] := by
    intro st2 fid lab st3 c hadd
    obtain ⟨hc, fc, rest, cs, hrest, hcs, hst3⟩ := addConnection_eq_some hadd
    refine ⟨by rw [hc], ?_⟩
    have h2 : connsOf st2 = cs := by
      rw [connsOf_eq hrest, hcs]
      rfl
    subst hst3
    rw [h2]
    simp [connsOf, getCurrentFlowchart]
  cases hcip : st.connectionInProgress with
  | none =>
    simp only [completeConnection, hcip, Option.some_inj] at hcc
    subst hcc
    refine ⟨rfl, ?_, ?_, Or.inl ?_, hpart5⟩
    · intro pc hpc
      exact absurd hpc (by simp)
    · intro pc hpc
      exact absurd hpc (by simp)
    · simp [connsOf, getCurrentFlowchart]
  | some pc0 =>
    by_cases heq : pc0.fromId = toNode.id
    · simp only [completeConnection, hcip, if_pos heq, Option.some_inj] at hcc
      subst hcc
      refine ⟨rfl, ?_, ?_, Or.inl ?_, hpart5⟩
      · intro pc hpc _
        rfl
      · intro pc hpc hne
        have hpc' := Option.some_inj.mp hpc
        subst hpc'
        exact absurd heq hne
      · simp [connsOf, getCurrentFlowchart]
    · simp only [completeConnection, hcip, if_neg heq, Option.map_eq_some'] at hcc
      obtain ⟨⟨st1, c⟩, hadd, hmap⟩ := hcc
    
      obtain ⟨hc, fc, rest, cs, hrest, hcs, hst1⟩ := addConnection_eq_some hadd
      have hcs0 : connsOf st = cs := by
        rw [connsOf_eq hrest, hcs]
        rfl
      have hcs' : connsOf st' = cs ++ [c] := by
        rw [← hmap]
        subst hst1
        simp [connsOf, getCurrentFlowchart]
      refine ⟨by rw [← hmap], ?_, ?_, Or.inr ⟨c, ?_, ?_⟩, hpart5⟩
      · intro pc hpc heq'
        have hpc' := Option.some_inj.mp hpc
        subst hpc'
        exact absurd heq' heq
      · intro pc hpc _
        have hpc' := Option.some_inj.mp hpc
        subst hpc'
        rw [hcs', hcs0, hc]
      · rw [hcs', hcs0]
      · rw [hc]
        exact heq

/-- A state with a pending connection started from `procNodeA`. -/
def stPending : EditorState := startConnection (initState ("t1")) procNodeA

/-- Witness for C9: completing the gesture on the originating node itself only
clears the pending slot — no edge is created. -/
theorem C9_gesture_no_selfloop_witness :
    (completeConnection stPending procNodeA).getD (initState ("t1")) =
      { stPending with connectionInProgress := none } := by
  have h := C9_gesture_no_selfloop stPending procNodeA
    ((completeConnection stPending procNodeA).getD (initState ("t1")))
    (by decide)
  exact h.2.1 { fromId := procNodeA.id, fromNode := procNodeA } (by decide) rfl

/-! ### No-op lemmas for stale ids (C7) -/

theorem findNodeById_none {st : EditorState} {nodeId : String}
    (h : findNodeById st nodeId = some none) :
    ∀ n ∈ nodesOf st, (n.id == nodeId) = false := by
  unfold findNodeById at h
  split at h
  · next fc hfc =>
    cases hns : fc.nodes with
    | none => rw [hns] at h; exact absurd h (by simp)
    | some ns =>
      rw [hns] at h
      simp only [Option.map_some', Option.some_inj] at h
      obtain ⟨rest, hrest⟩ := getCurrentFlowchart_inv hfc
      rw [nodesOf_eq hrest, hns]
      intro n hn
      have := List.find?_eq_none.mp h n (by simpa using hn)
      simpa using this
  · exact absurd h (by simp)

theorem findConnectionById_none {st : EditorState} {connectionId : String}
    (h : findConnectionById st connectionId = some none) :
    ∀ c ∈ connsOf st, (c.id == connectionId) = false := by
  unfold findConnectionById at h
  split at h
  · next fc hfc =>
    cases hcs : fc.connections with
    | none => rw [hcs] at h; exact absurd h (by simp)
    | some cs =>
      rw [hcs] at h
      simp only [Option.map_some', Option.some_inj] at h
      obtain ⟨rest, hrest⟩ := getCurrentFlowchart_inv hfc
      rw [connsOf_eq hrest, hcs]
      intro c hc
      have := List.find?_eq_none.mp h c (by simpa using hc)
      simpa using this
  · exact absurd h (by simp)

theorem withSec0Nodes_congr_self {st st' : EditorState}
    {f : List Node → List Node} (h : withSec0Nodes st f = some st')
    (hf : f (nodesOf st) = nodesOf st) : st' = st := by
  obtain ⟨fc, rest, ns, hrest, hns, hst'⟩ := withSec0Nodes_eq_some h
  have hview : nodesOf st = ns := by
    rw [nodesOf_eq hrest, hns]
    rfl
  rw [hview] at hf
  rw [hf] at hst'
  have hfc' : ({ fc with nodes := some ns } : RawSection) = fc := by
    rw [← hns]
  rw [hfc'] at hst'
  have hdata : ({ st.data with flowcharts := some (fc :: rest) } : DiagramData) =
      st.data := by
    rw [← hrest]
  rw [hdata] at hst'
  exact hst'

theorem withSec0Conns_congr_self {st st' : EditorState}
    {f : List Connection → List Connection} (h : withSec0Conns st f = some st')
    (hf : f (connsOf st) = connsOf st) : st' = st := by
  obtain ⟨fc, rest, cs, hrest, hcs, hst'⟩ := withSec0Conns_eq_some h
  have hview : connsOf st = cs := by
    rw [connsOf_eq hrest, hcs]
    rfl
  rw [hview] at hf
  rw [hf] at hst'
  have hfc' : ({ fc with connections := some cs } : RawSection) = fc := by
    rw [← hcs]
  rw [hfc'] at hst'
  have hdata : ({ st.data with flowcharts := some (fc :: rest) } : DiagramData) =
      st.data := by
    rw [← hrest]
  rw [hdata] at hst'
  exact hst'

/-- C7 (amended): every id-taking mutation except `deleteNode` is a pure no-op
when the id resolves to no entity — the state is returned unchanged and the
caller gets no error signal; `deleteNode` on an id that matches no node
leaves the node list unchanged but still filters the connection list by that
id's endpoints, so it is a no-op only when additionally no (dangling)
connection references the id as an endpoint. -/
theorem C7_stale_id_noop (st st' : EditorState) (entityId : String) :
    (∀ x y, updateNodePosition st entityId x y = some st' →
       findNodeById st entityId = some none → st' = st) ∧
    (∀ text, updateNodeText st entityId text = some st' →
       findNodeById st entityId = some none → st' = st) ∧
    (∀ type, updateNodeType st entityId type = some st' →
       findNodeById st entityId = some none → st' = st) ∧
    (∀ status, updateNodeStatus st entityId status = some st' →
       findNodeById st entityId = some none → st' = st) ∧
    (∀ notes, updateNodeNotes st entityId notes = some st' →
       findNodeById st entityId = some none → st' = st) ∧
    (∀ label, updateConnectionLabel st entityId label = some st' →
       findConnectionById st entityId = some none → st' = st) ∧
    (∀ style, updateConnectionStyle st entityId style = some st' →
       findConnectionById st entityId = some none → st' = st) ∧
    (∀ status, updateConnectionStatus st entityId status = some st' →
       findConnectionById st entityId = some none → st' = st) ∧
    (deleteConnection st entityId = some st' →
       findConnectionById st entityId = some none → st' = st) ∧
    (deleteNode st entityId = some st' →
       findNodeById st entityId = some none →
       nodesOf st' = nodesOf st ∧
       connsOf st' = (connsOf st).filter
         (fun c => !(c.fromId == entityId) && !(c.toId == entityId)) ∧
       ((∀ c ∈ connsOf st, ¬ (c.fromId = entityId ∨ c.toId = entityId)) →
         st' = st)) := by
  refine ⟨?_, ?_, ?_, ?_, ?_, ?_, ?_, ?_, ?_, ?_⟩
  · intro x y hupd hfind
    exact withSec0Nodes_congr_self hupd
      (updateFirst_of_none _ _ _ (findNodeById_none hfind))
  · intro text hupd hfind
    exact withSec0Nodes_congr_self hupd
      (updateFirst_of_none _ _ _ (findNodeById_none hfind))
  · intro type hupd hfind
    exact withSec0Nodes_congr_self hupd
      (updateFirst_of_none _ _ _ (findNodeById_none hfind))
  · intro status hupd hfind
    exact withSec0Nodes_congr_self hupd
      (updateFirst_of_none _ _ _ (findNodeById_none hfind))
  · intro notes hupd hfind
    exact withSec0Nodes_congr_self hupd
      (updateFirst_of_none _ _ _ (findNodeById_none hfind))
  · intro label hupd hfind
    exact withSec0Conns_congr_self hupd
      (updateFirst_of_none _ _ _ (findConnectionById_none hfind))
  · intro style hupd hfind
    exact withSec0Conns_congr_self hupd
      (updateFirst_of_none _ _ _ (findConnectionById_none hfind))
  · intro status hupd hfind
    exact withSec0Conns_congr_self hupd
      (updateFirst_of_none _ _ _ (findConnectionById_none hfind))
  · intro hdel hfind
    refine withSec0Conns_congr_self hdel (filter_eq_self_of_all _ _ ?_)
    intro c hc
    rw [findConnectionById_none hfind c hc]
    rfl
  · intro hdel hfind
    obtain ⟨fc, rest, ns, cs, hrest, hns, hcs, hst'⟩ := deleteNode_eq_some hdel
    have hnsview : nodesOf st = ns := by
      rw [nodesOf_eq hrest, hns]
      rfl
    have hcsview : connsOf st = cs := by
      rw [connsOf_eq hrest, hcs]
      rfl
    have hnone := findNodeById_none hfind
    rw [hnsview] at hnone
    have hfilter : ns.filter (fun n => !(n.id == entityId)) = ns := by
      refine filter_eq_self_of_all _ _ ?_
      intro n hn
      rw [hnone n hn]
      rfl
    refine ⟨?_, ?_, ?_⟩
    · subst hst'
      rw [hnsview]
      simp [nodesOf, getCurrentFlowchart, hfilter]
    · subst hst'
      rw [hcsview]
      simp [connsOf, getCurrentFlowchart]
    · intro hnoconn
      rw [hcsview] at hnoconn
      have hcf : cs.filter
          (fun c => !(c.fromId == entityId) && !(c.toId == entityId)) = cs := by
        refine filter_eq_self_of_all _ _ ?_
        intro c hc
        have h2 := hnoconn c hc
        push_neg at h2
        simp [h2.1, h2.2]
      rw [hfilter, hcf] at hst'
      have hfc' : ({ fc with nodes := some ns, connections := some cs } :
          RawSection) = fc := by
        rw [← hns, ← hcs]
      rw [hfc'] at hst'
      have hdata : ({ st.data with flowcharts := some (fc :: rest) } :
          DiagramData) = st.data := by
        rw [← hrest]
      rw [hdata] at hst'
      exact hst'

/-- A reachable state holding one dangling connection `conn-1` from `node-9`
to `node-2` and no nodes at all. -/
def stC7 : EditorState :=
  ((addConnection (initState ("t2")) ("node-9") ("node-2") ("")).map
    Prod.fst).getD (initState ("t2"))

/-- Counterexample to C7 as stated: `node-9` resolves to no node and no
connection in `stC7`, yet `deleteNode` with that id changes the state (the
dangling connection is removed). -/
theorem C7_stale_id_counterexample :
    findNodeById stC7 ("node-9") = some none ∧
    findConnectionById stC7 ("node-9") = some none ∧
    (deleteNode stC7 ("node-9")).isSome = true ∧
    deleteNode stC7 ("node-9") ≠ some stC7 := by decide

/-- Witness for C7 (amended): a stale node id on a fresh editor leaves the
state unchanged. -/
theorem C7_stale_id_noop_witness :
    (updateNodePosition (initState ("t3")) ("node-42") 1 2).getD
      (initState ("t3")) = initState ("t3") := by
  have h := C7_stale_id_noop (initState ("t3"))
    ((updateNodePosition (initState ("t3")) ("node-42") 1 2).getD
      (initState ("t3"))) ("node-42")
  exact h.1 1 2 (by decide) (by decide)

/-! ### Load lemmas (C1, C2, C3) -/

theorem updateIdCounters_data (st : EditorState) :
    (updateIdCounters st).1.data = st.data := by
  unfold updateIdCounters
  repeat' split
  all_goals rfl

theorem updateIdCounters_cip (st : EditorState) :
    (updateIdCounters st).1.connectionInProgress = st.connectionInProgress := by
  unfold updateIdCounters
  repeat' split
  all_goals rfl

theorem updateIdCounters_wf {st : EditorState} {fc : RawSection}
    {rest : List RawSection} {ns : List Node} {cs : List Connection}
    {qs : List Question}
    (hrest : st.data.flowcharts = some (fc :: rest)) (hns : fc.nodes = some ns)
    (hcs : fc.connections = some cs) (hqs : fc.questions = some qs) :
    updateIdCounters st =
      ({ st with
         nextNodeId := nextCounter nodePat (ns.map Node.id)
         nextConnectionId := nextCounter connPat (cs.map Connection.id)
         nextQuestionId := nextCounter qPat (qs.map Question.id) }, false) := by
  have hgc : getCurrentFlowchart st = some fc := by
    simp [getCurrentFlowchart, hrest]
  simp [updateIdCounters, hgc, hns, hcs, hqs]

/-- C1 (amended): `loadFromJSON` is total — a caught error never escapes, it
only sets the notification flag — but load is not all-or-nothing: when the
payload passes the `version && flowcharts` truthiness check it is installed
as the diagram data *before* counter recomputation, so a caught error leaves
the (malformed) payload applied; only on the legacy branch does a caught
error leave the state unchanged. -/
theorem C1_load_partial (st : EditorState) (p : DiagramData)
    (herr : (loadFromJSON st p).2 = true) :
    (dTruthy p = true ∧ (loadFromJSON st p).1.data = p) ∨
    (dTruthy p = false ∧ (loadFromJSON st p).1 = st) := by
  by_cases hdt : dTruthy p = true
  · refine Or.inl ⟨hdt, ?_⟩
    simp only [loadFromJSON, if_pos hdt]
    exact updateIdCounters_data _
  · have hdt' : dTruthy p = false := by
      cases h : dTruthy p
      · rfl
      · exact absurd h hdt
    refine Or.inr ⟨hdt', ?_⟩
    simp only [loadFromJSON, hdt', Bool.false_eq_true, if_false] at herr ⊢
    split at herr
    · next fc rest heq =>
      have hwf := @updateIdCounters_wf
        { st with data := { st.data with
            flowcharts := some
              ({ fc with
                 nodes := some (p.nodes.getD [])
                 connections := some (p.connections.getD [])
                 questions := some (p.questions.getD []) } :: rest) } }
        { fc with
          nodes := some (p.nodes.getD [])
          connections := some (p.connections.getD [])
          questions := some (p.questions.getD []) }
        rest (p.nodes.getD []) (p.connections.getD []) (p.questions.getD [])
        rfl rfl rfl rfl
      rw [hwf] at herr
      exact absurd herr (by simp)
    · rfl

/-- A payload that passes the `version && flowcharts` check but has no
section 0, so `updateIdCounters` throws after the payload is installed. -/
def badPayload : DiagramData :=
  { version := some 1
    timestamp := none
    title := none
    description := none
    generalNotes := none
    flowcharts := some []
    nodes := none
    connections := none
    questions := none }

/-- Counterexample to C1 as stated: loading `badPayload` is caught (flag set,
nothing escapes) yet the state after the call differs from the state before —
the malformed payload was partially applied. -/
theorem C1_counterexample :
    (loadFromJSON (initState ("t4")) badPayload).2 = true ∧
    (loadFromJSON (initState ("t4")) badPayload).1 ≠ initState ("t4") := by
  decide

/-- Witness for C1 (amended), at the concrete malformed payload. -/
theorem C1_load_partial_witness :
    (dTruthy badPayload = true ∧
     (loadFromJSON (initState ("t4")) badPayload).1.data = badPayload) ∨
    (dTruthy badPayload = false ∧
     (loadFromJSON (initState ("t4")) badPayload).1 = initState ("t4")) :=
  C1_load_partial (initState ("t4")) badPayload (by decide)

theorem updateIdCounters_success_inv {st st' : EditorState}
    (h : updateIdCounters st = (st', false)) :
    ∃ fc rest ns cs qs, st.data.flowcharts = some (fc :: rest) ∧
      fc.nodes = some ns ∧ fc.connections = some cs ∧ fc.questions = some qs ∧
      st' = { st with
        nextNodeId := nextCounter nodePat (ns.map Node.id)
        nextConnectionId := nextCounter connPat (cs.map Connection.id)
        nextQuestionId := nextCounter qPat (qs.map Question.id) } := by
  unfold updateIdCounters at h
  split at h
  · have := congrArg Prod.snd h
    exact absurd this (by simp)
  · next fc hfc =>
    split at h
    · have := congrArg Prod.snd h
      exact absurd this (by simp)
    · next ns hns =>
      split at h
      · have := congrArg Prod.snd h
        exact absurd this (by simp)
      · next cs hcs =>
        split at h
        · have := congrArg Prod.snd h
          exact absurd this (by simp)
        · next qs hqs =>
          obtain ⟨rest, hrest⟩ := getCurrentFlowchart_inv hfc
          refine ⟨fc, rest, ns, cs, qs, hrest, hns, hcs, hqs, ?_⟩
          exact (congrArg Prod.fst h).symm

theorem updateIdCounters_success_counters {st st' : EditorState}
    (h : updateIdCounters st = (st', false)) :
    st'.nextNodeId = nextCounter nodePat ((nodesOf st').map Node.id) ∧
    st'.nextConnectionId =
      nextCounter connPat ((connsOf st').map Connection.id) ∧
    st'.nextQuestionId = nextCounter qPat ((questionsOf st').map Question.id) := by
  obtain ⟨fc, rest, ns, cs, qs, hrest, hns, hcs, hqs, hst'⟩ :=
    updateIdCounters_success_inv h
  subst hst'
  have hrest' : ({ st with
      nextNodeId := nextCounter nodePat (ns.map Node.id)
      nextConnectionId := nextCounter connPat (cs.map Connection.id)
      nextQuestionId := nextCounter qPat (qs.map Question.id) } :
        EditorState).data.flowcharts = some (fc :: rest) := hrest
  rw [nodesOf_eq hrest', connsOf_eq hrest', questionsOf_eq hrest',
    hns, hcs, hqs]
  exact ⟨rfl, rfl, rfl⟩

theorem loadFromJSON_success_updateIdCounters {st st' : EditorState}
    {p : DiagramData} (h : loadFromJSON st p = (st', false)) :
    ∃ st0, updateIdCounters st0 = (st', false) := by
  unfold loadFromJSON at h
  split at h
  · exact ⟨_, h⟩
  · split at h
    · exact ⟨_, h⟩
    · have := congrArg Prod.snd h
      exact absurd this (by simp)

theorem lt_nextCounter {pat : List Char} {ids : List String} :
    ∀ s ∈ ids, idSuffix pat s < nextCounter pat ids := by
  intro s hs
  have := foldl_max_ge_mem ((ids.map (idSuffix pat))) 0 (idSuffix pat s)
    (List.mem_map_of_mem (idSuffix pat) hs)
  unfold nextCounter
  omega

/-- C3: after any successful load, the next `addNode` returns a node whose
id's numeric suffix equals the recomputed counter and is strictly greater
than every numeric suffix occurring among the loaded node ids (the ids the
payload installed in the active section), and the connection and question
counters are recomputed the same way: strictly above every loaded
`conn-<n>` / `q-<n>` suffix. -/
theorem C3_counters_recomputed (st : EditorState) (p : DiagramData)
    (st' : EditorState) (hload : loadFromJSON st p = (st', false)) :
    (∀ type x y st'' nd, addNode st' type x y = some (st'', nd) →
       idSuffix nodePat nd.id = st'.nextNodeId ∧
       ∀ n ∈ nodesOf st', ∀ k, scanNum nodePat n.id.data = some k →
         k < idSuffix nodePat nd.id) ∧
    (∀ n ∈ nodesOf st', idSuffix nodePat n.id < st'.nextNodeId) ∧
    (∀ c ∈ connsOf st', idSuffix connPat c.id < st'.nextConnectionId) ∧
    (∀ q ∈ questionsOf st', idSuffix qPat q.id < st'.nextQuestionId) := by
  obtain ⟨st0, hui⟩ := loadFromJSON_success_updateIdCounters hload
  obtain ⟨hn, hc, hq⟩ := updateIdCounters_success_counters hui
  have hnode : ∀ n ∈ nodesOf st', idSuffix nodePat n.id < st'.nextNodeId := by
    intro n hnmem
    rw [hn]
    exact lt_nextCounter n.id (List.mem_map_of_mem Node.id hnmem)
  refine ⟨?_, hnode, ?_, ?_⟩
  · intro type x y st'' nd hadd
    have hid : nd.id = "node-" ++ natRepr st'.nextNodeId := by
      rw [(addNode_eq_some hadd).1]
    have hsfx : idSuffix nodePat nd.id = st'.nextNodeId := by
      rw [hid, idSuffix_node_repr]
    refine ⟨hsfx, ?_⟩
    intro n hnmem k hk
    have hksfx : idSuffix nodePat n.id = k := by
      unfold idSuffix
      rw [hk]
      rfl
    rw [hsfx, ← hksfx]
    exact hnode n hnmem
  · intro c hcmem
    rw [hc]
    exact lt_nextCounter c.id (List.mem_map_of_mem Connection.id hcmem)
  · intro q hqmem
    rw [hq]
    exact lt_nextCounter q.id (List.mem_map_of_mem Question.id hqmem)

/-- A loaded node with id `node-3`. -/
def n3 : Node := { procNodeA with id := "node-3" }

/-- A loaded node with id `node-7`. -/
def n7 : Node := { procNodeB with id := "node-7" }

/-- A legacy payload holding only the sparse nodes `node-3` and `node-7`. -/
def pld37 : DiagramData :=
  { version := none
    timestamp := none
    title := none
    description := none
    generalNotes := none
    flowcharts := none
    nodes := some [n3, n7]
    connections := none
    questions := none }

/-- The editor state after loading the sparse payload. -/
def stLoaded : EditorState := (loadFromJSON (initState ("t5")) pld37).1

/-- The node created by the first `addNode` after the sparse load. -/
def ndW : Node :=
  ((addNode stLoaded ("process") 0 0).map Prod.snd).getD procNodeA

/-- Witness for C3: loading `node-3` and `node-7` then adding a node yields
`node-8`, whose suffix strictly exceeds the loaded suffixes. -/
theorem C3_counters_recomputed_witness :
    ndW.id = ("node-8") ∧
    idSuffix nodePat ndW.id = stLoaded.nextNodeId ∧
    idSuffix nodePat ("node-3") < idSuffix nodePat ndW.id := by
  have h := C3_counters_recomputed (initState ("t5")) pld37 stLoaded (by decide)
  have h1 := h.1 ("process") 0 0
    (((addNode stLoaded ("process") 0 0).map Prod.fst).getD stLoaded) ndW
  refine ⟨by decide, ?_, ?_⟩
  · exact (h1 (by decide)).1
  · have h2 := (h1 (by decide)).2 n3 (by decide) 3 (by decide)
    have h3 : idSuffix nodePat ("node-3") = 3 := by decide
    rw [h3]
    exact h2

/-! ### Node-id invariants over operation sequences (C4, C10) -/

theorem applyEOp_nodesWF {st st' : EditorState} {o : EOp}
    (h : applyEOp st o = some st')
    (hb : ∀ n ∈ nodesOf st, ∃ j, j < st.nextNodeId ∧ n.id = "node-" ++ natRepr j)
    (hnd : ((nodesOf st).map Node.id).Nodup) :
    (∀ n ∈ nodesOf st', ∃ j, j < st'.nextNodeId ∧ n.id = "node-" ++ natRepr j) ∧
    ((nodesOf st').map Node.id).Nodup := by
  cases o with
  | add type x y =>
    simp only [applyEOp, Option.map_eq_some'] at h
    obtain ⟨⟨st1, nd⟩, hadd, hfst⟩ := h
    obtain ⟨hndeq, fc, rest, ns, hrest, hns, hst1⟩ := addNode_eq_some hadd
    have hview : nodesOf st = ns := by
      rw [nodesOf_eq hrest, hns]
      rfl
    have hfst' : st1 = st' := hfst
    subst hfst'
    subst hst1
    have hview' : nodesOf
        { st with
          nextNodeId := st.nextNodeId + 1
          data := { st.data with
            flowcharts := some ({ fc with nodes := some (ns ++ [nd]) } :: rest) } }
        = ns ++ [nd] := by
      simp [nodesOf, getCurrentFlowchart]
    rw [hview']
    rw [hview] at hb hnd
    have hboundnew : ∀ n ∈ ns ++ [nd],
        ∃ j, j < st.nextNodeId + 1 ∧ n.id = "node-" ++ natRepr j := by
      intro n hn
      rcases List.mem_append.mp hn with hn | hn
      · obtain ⟨j, hj, hid⟩ := hb n hn
        exact ⟨j, Nat.lt_succ_of_lt hj, hid⟩
      · have : n = nd := List.mem_singleton.mp hn
        subst this
        refine ⟨st.nextNodeId, Nat.lt_succ_self _, ?_⟩
        rw [hndeq]
    refine ⟨hboundnew, ?_⟩
    have hndid : nd.id = "node-" ++ natRepr st.nextNodeId := by
      rw [hndeq]
    have hnotmem : nd.id ∉ ns.map Node.id := by
      intro hmem
      obtain ⟨n, hnmem, hnid⟩ := List.mem_map.mp hmem
      obtain ⟨j, hj, hid⟩ := hb n hnmem
      rw [hid, hndid] at hnid
      have : j = st.nextNodeId := node_repr_inj hnid
      omega
    rw [List.map_append, List.map_singleton]
    rw [List.nodup_append]
    exact ⟨hnd, List.nodup_singleton _, by
      simp only [List.disjoint_singleton]
      exact hnotmem⟩
  | del nodeId =>
    simp only [applyEOp] at h
    obtain ⟨fc, rest, ns, cs, hrest, hns, hcs, hst'⟩ := deleteNode_eq_some h
    have hview : nodesOf st = ns := by
      rw [nodesOf_eq hrest, hns]
      rfl
    subst hst'
    have hview' : nodesOf
        { st with data := { st.data with
          flowcharts := some
            ({ fc with
               nodes := some (ns.filter (fun n => !(n.id == nodeId)))
               connections := some (cs.filter
                 (fun c => !(c.fromId == nodeId) && !(c.toId == nodeId))) }
              :: rest) } }
        = ns.filter (fun n => !(n.id == nodeId)) := by
      simp [nodesOf, getCurrentFlowchart]
    rw [hview']
    rw [hview] at hb hnd
    constructor
    · intro n hn
      exact hb n (List.mem_of_mem_filter hn)
    · exact List.Nodup.sublist
        (List.Sublist.map Node.id (List.filter_sublist ns)) hnd
  | clear =>
    simp only [applyEOp] at h
    obtain ⟨fc, rest, hrest, hst'⟩ := clearAll_eq_some h
    subst hst'
    have hview' : nodesOf
        { st with data := { st.data with
          flowcharts := some
            ({ fc with
               nodes := some []
               connections := some []
               questions := some [] } :: rest) } } = ([] : List Node) := by
      simp [nodesOf, getCurrentFlowchart]
    rw [hview']
    constructor
    · intro n hn
      exact absurd hn (List.not_mem_nil n)
    · simp

theorem applyEOps_nodesWF :
    ∀ (ops : List EOp) (st st' : EditorState),
      applyEOps st ops = some st' →
      (∀ n ∈ nodesOf st, ∃ j, j < st.nextNodeId ∧ n.id = "node-" ++ natRepr j) →
      ((nodesOf st).map Node.id).Nodup →
      (∀ n ∈ nodesOf st', ∃ j, j < st'.nextNodeId ∧
         n.id = "node-" ++ natRepr j) ∧
      ((nodesOf st').map Node.id).Nodup := by
  intro ops
  induction ops with
  | nil =>
    intro st st' h hb hnd
    simp only [applyEOps, Option.some_inj] at h
    subst h
    exact ⟨hb, hnd⟩
  | cons o os ih =>
    intro st st' h hb hnd
    simp only [applyEOps] at h
    cases ho : applyEOp st o with
    | none => rw [ho] at h; exact absurd h (by simp)
    | some st1 =>
      rw [ho] at h
      obtain ⟨hb1, hnd1⟩ := applyEOp_nodesWF ho hb hnd
      exact ih st1 st' h hb1 hnd1

/-- C4: over every sequence of `addNode`/`deleteNode` operations from a fresh
editor the live node-id list stays duplicate-free, and a single `deleteNode`
call removes exactly the node with the given id and every connection having
that id as either endpoint, leaving every other node and connection (and the
questions and all id counters) untouched. -/
theorem C4_nodup_and_cascade (ts : String) (ops : List EOp) (st' : EditorState)
    (hops : applyEOps (initState ts) ops = some st')
    (_hnoclear : EOp.clear ∉ ops) :
    ((nodesOf st').map Node.id).Nodup ∧
    (∀ st2 st3 nodeId, deleteNode st2 nodeId = some st3 →
       (∀ n : Node, n ∈ nodesOf st3 ↔ n ∈ nodesOf st2 ∧ ¬ n.id = nodeId) ∧
       (∀ c : Connection, c ∈ connsOf st3 ↔
          c ∈ connsOf st2 ∧ ¬ c.fromId = nodeId ∧ ¬ c.toId = nodeId) ∧
       questionsOf st3 = questionsOf st2 ∧
       st3.nextNodeId = st2.nextNodeId ∧
       st3.nextConnectionId = st2.nextConnectionId ∧
       st3.nextQuestionId = st2.nextQuestionId) := by
  constructor
  · refine (applyEOps_nodesWF ops (initState ts) st' hops ?_ ?_).2
    · intro n hn
      exact absurd hn (by simp [nodesOf, initState, getCurrentFlowchart])
    · simp [nodesOf, initState, getCurrentFlowchart]
  · intro st2 st3 nodeId hdel
    obtain ⟨fc, rest, ns, cs, hrest, hns, hcs, hst3⟩ := deleteNode_eq_some hdel
    have hviewn : nodesOf st2 = ns := by
      rw [nodesOf_eq hrest, hns]
      rfl
    have hviewc : connsOf st2 = cs := by
      rw [connsOf_eq hrest, hcs]
      rfl
    have hviewq : questionsOf st2 = fc.questions.getD [] := questionsOf_eq hrest
    subst hst3
    refine ⟨?_, ?_, ?_, rfl, rfl, rfl⟩
    · intro n
      rw [hviewn]
      have hv : nodesOf
          { st2 with data := { st2.data with
            flowcharts := some
              ({ fc with
                 nodes := some (ns.filter (fun n => !(n.id == nodeId)))
                 connections := some (cs.filter
                   (fun c => !(c.fromId == nodeId) && !(c.toId == nodeId))) }
                :: rest) } }
          = ns.filter (fun n => !(n.id == nodeId)) := by
        simp [nodesOf, getCurrentFlowchart]
      rw [hv, List.mem_filter]
      simp
    · intro c
      rw [hviewc]
      have hv : connsOf
          { st2 with data := { st2.data with
            flowcharts := some
              ({ fc with
                 nodes := some (ns.filter (fun n => !(n.id == nodeId)))
                 connections := some (cs.filter
                   (fun c => !(c.fromId == nodeId) && !(c.toId == nodeId))) }
                :: rest) } }
          = cs.filter (fun c => !(c.fromId == nodeId) && !(c.toId == nodeId)) := by
        simp [connsOf, getCurrentFlowchart]
      rw [hv, List.mem_filter]
      simp
    · rw [hviewq]
      simp [questionsOf, getCurrentFlowchart]

/-- A concrete add/add/delete sequence. -/
def opsW : List EOp :=
  [EOp.add ("process") 0 0, EOp.add ("decision") 5 5, EOp.del ("node-1")]

/-- The state it produces from a fresh editor. -/
def stW4 : EditorState :=
  (applyEOps (initState ("t6")) opsW).getD (initState ("t6"))

/-- Witness for C4: the concrete sequence keeps node ids duplicate-free. -/
theorem C4_nodup_and_cascade_witness : ((nodesOf stW4).map Node.id).Nodup :=
  (C4_nodup_and_cascade ("t6") opsW stW4 (by decide) (by decide)).1

theorem applyEOp_add_counter {st st1 : EditorState} {type : String} {x y : ℚ}
    (h : applyEOp st (EOp.add type x y) = some st1) :
    st1.nextNodeId = st.nextNodeId + 1 := by
  simp only [applyEOp, Option.map_eq_some'] at h
  obtain ⟨⟨sta, nd⟩, hadd, hfst⟩ := h
  obtain ⟨_, fc, rest, ns, _, _, hsta⟩ := addNode_eq_some hadd
  have hfst' : sta = st1 := hfst
  rw [← hfst', hsta]

theorem applyEOp_nextNodeId_mono {st st' : EditorState} {o : EOp}
    (h : applyEOp st o = some st') : st.nextNodeId ≤ st'.nextNodeId := by
  cases o with
  | add type x y =>
    rw [applyEOp_add_counter h]
    exact Nat.le_succ _
  | del nodeId =>
    obtain ⟨fc, rest, ns, cs, hrest, hns, hcs, hst'⟩ := deleteNode_eq_some h
    rw [hst']
  | clear =>
    obtain ⟨fc, rest, hrest, hst'⟩ := clearAll_eq_some h
    rw [hst']

theorem applyEOps_nextNodeId_mono :
    ∀ (ops : List EOp) (st st' : EditorState),
      applyEOps st ops = some st' → st.nextNodeId ≤ st'.nextNodeId := by
  intro ops
  induction ops with
  | nil =>
    intro st st' h
    simp only [applyEOps, Option.some_inj] at h
    subst h
    exact le_refl _
  | cons o os ih =>
    intro st st' h
    simp only [applyEOps] at h
    cases ho : applyEOp st o with
    | none => rw [ho] at h; exact absurd h (by simp)
    | some st1 =>
      rw [ho] at h
      exact le_trans (applyEOp_nextNodeId_mono ho) (ih st1 st' h)

theorem allocIds_cons (st : EditorState) (o : EOp) (os : List EOp) :
    allocIds st (o :: os) =
      match applyEOp st o with
      | some st1 =>
        (match o with
         | .add _ _ _ => ["node-" ++ natRepr st.nextNodeId]
         | _ => []) ++ allocIds st1 os
      | none => [] := rfl

theorem allocIds_suffix_lt :
    ∀ (ops : List EOp) (st st' : EditorState),
      applyEOps st ops = some st' →
      ∀ s ∈ allocIds st ops, idSuffix nodePat s < st'.nextNodeId := by
  intro ops
  induction ops with
  | nil =>
    intro st st' _ s hs
    exact absurd hs (List.not_mem_nil s)
  | cons o os ih =>
    intro st st' h s hs
    simp only [applyEOps] at h
    cases ho : applyEOp st o with
    | none =>
      rw [ho] at h
      exact absurd h (by simp)
    | some st1 =>
      rw [ho] at h
      rw [allocIds_cons] at hs
      simp only [ho] at hs
      rcases List.mem_append.mp hs with hpre | htail
      · cases o with
        | add type x y =>
          have hseq : s = "node-" ++ natRepr st.nextNodeId :=
            List.mem_singleton.mp hpre
          rw [hseq, idSuffix_node_repr]
          have h1 : st1.nextNodeId = st.nextNodeId + 1 := applyEOp_add_counter ho
          have h2 : st1.nextNodeId ≤ st'.nextNodeId :=
            applyEOps_nextNodeId_mono os st1 st' h
          omega
        | del nodeId => exact absurd hpre (by simp)
        | clear => exact absurd hpre (by simp)
      · exact ih st1 st' h s htail

/-- C10: `clearAll` empties the active section's three lists while leaving the
three id counters and the diagram's `version`, `title`, `description` and
`generalNotes` untouched; consequently a node added right after a `clearAll`
gets a numeric suffix strictly greater than the suffix of every node id
allocated (by any `addNode` of the preceding operation sequence) before the
clear — node ids are never reused across a `clearAll`. -/
theorem C10_clearAll_frame (st st' : EditorState)
    (hclear : clearAll st = some st') :
    (st'.nextNodeId = st.nextNodeId ∧
     st'.nextConnectionId = st.nextConnectionId ∧
     st'.nextQuestionId = st.nextQuestionId ∧
     st'.data.version = st.data.version ∧
     st'.data.title = st.data.title ∧
     st'.data.description = st.data.description ∧
     st'.data.generalNotes = st.data.generalNotes ∧
     nodesOf st' = [] ∧ connsOf st' = [] ∧ questionsOf st' = []) ∧
    (∀ ts ops st1 st2 type x y st3 nd,
       applyEOps (initState ts) ops = some st1 →
       clearAll st1 = some st2 →
       addNode st2 type x y = some (st3, nd) →
       ∀ s ∈ allocIds (initState ts) ops,
         idSuffix nodePat s < idSuffix nodePat nd.id) := by
  constructor
  · obtain ⟨fc, rest, hrest, hst'⟩ := clearAll_eq_some hclear
    subst hst'
    refine ⟨rfl, rfl, rfl, rfl, rfl, rfl, rfl, ?_, ?_, ?_⟩
    · simp [nodesOf, getCurrentFlowchart]
    · simp [connsOf, getCurrentFlowchart]
    · simp [questionsOf, getCurrentFlowchart]
  · intro ts ops st1 st2 type x y st3 nd hops hcl hadd s hs
    have hndid : nd.id = "node-" ++ natRepr st2.nextNodeId := by
      rw [(addNode_eq_some hadd).1]
    have hc2 : st2.nextNodeId = st1.nextNodeId := by
      obtain ⟨fc, rest, hrest, hst2⟩ := clearAll_eq_some hcl
      rw [hst2]
    rw [hndid, idSuffix_node_repr, hc2]
    exact allocIds_suffix_lt ops (initState ts) st1 hops s hs

/-- Two adds before the clear. -/
def ops10 : List EOp := [EOp.add ("process") 0 0, EOp.add ("process") 3 4]

/-- The state after the two adds. -/
def st10a : EditorState :=
  (applyEOps (initState ("t7")) ops10).getD (initState ("t7"))

/-- The state after `clearAll`. -/
def st10b : EditorState := (clearAll st10a).getD st10a

/-- The node added after the clear. -/
def nd10 : Node :=
  ((addNode st10b ("process") 1 1).map Prod.snd).getD procNodeA

/-- Witness for C10: counters survive the clear, and the node added after it
has a suffix strictly above the previously allocated `node-2`. -/
theorem C10_clearAll_frame_witness :
    st10b.nextNodeId = st10a.nextNodeId ∧
    idSuffix nodePat ("node-2") < idSuffix nodePat nd10.id := by
  have h := C10_clearAll_frame st10a st10b (by decide)
  refine ⟨h.1.1, ?_⟩
  exact h.2 ("t7") ops10 st10a st10b ("process") 1 1
    (((addNode st10b ("process") 1 1).map Prod.fst).getD st10b) nd10
    (by decide) (by decide) (by decide) ("node-2") (by decide)

/-! ### Reachability invariant and export/load round trip (C2) -/

theorem dTruthy_update_flowcharts {d : DiagramData} {l : List RawSection}
    (h : dTruthy d = true) :
    dTruthy { d with flowcharts := some l } = true := by
  unfold dTruthy at h ⊢
  simp only [Bool.and_eq_true] at h ⊢
  exact ⟨h.1, rfl⟩

theorem loadFromJSON_dTruthy {st : EditorState} (p : DiagramData)
    (h : dTruthy st.data = true) : dTruthy (loadFromJSON st p).1.data = true := by
  unfold loadFromJSON
  cases hdt : dTruthy p with
  | true =>
    simp only [hdt, if_true]
    rw [updateIdCounters_data]
    exact hdt
  | false =>
    simp only [hdt, Bool.false_eq_true, if_false]
    split
    · next fc rest heq =>
      rw [updateIdCounters_data]
      exact dTruthy_update_flowcharts h
    · exact h

theorem reachable_dTruthy {st : EditorState} (h : Reachable st) :
    dTruthy st.data = true := by
  induction h with
  | init ts => rfl
  | addNode type x y hr hop ih =>
    obtain ⟨_, fc, rest, ns, hrest, hns, hshape⟩ := addNode_eq_some hop
    rw [hshape]
    exact dTruthy_update_flowcharts ih
  | updateNodePosition nodeId x y hr hop ih =>
    obtain ⟨fc, rest, ns, hrest, hns, hshape⟩ := withSec0Nodes_eq_some hop
    rw [hshape]
    exact dTruthy_update_flowcharts ih
  | updateNodeText nodeId text hr hop ih =>
    obtain ⟨fc, rest, ns, hrest, hns, hshape⟩ := withSec0Nodes_eq_some hop
    rw [hshape]
    exact dTruthy_update_flowcharts ih
  | updateNodeType nodeId type hr hop ih =>
    obtain ⟨fc, rest, ns, hrest, hns, hshape⟩ := withSec0Nodes_eq_some hop
    rw [hshape]
    exact dTruthy_update_flowcharts ih
  | updateNodeStatus nodeId status hr hop ih =>
    obtain ⟨fc, rest, ns, hrest, hns, hshape⟩ := withSec0Nodes_eq_some hop
    rw [hshape]
    exact dTruthy_update_flowcharts ih
  | updateNodeNotes nodeId notes hr hop ih =>
    obtain ⟨fc, rest, ns, hrest, hns, hshape⟩ := withSec0Nodes_eq_some hop
    rw [hshape]
    exact dTruthy_update_flowcharts ih
  | deleteNode nodeId hr hop ih =>
    obtain ⟨fc, rest, ns, cs, hrest, hns, hcs, hshape⟩ := deleteNode_eq_some hop
    rw [hshape]
    exact dTruthy_update_flowcharts ih
  | startConnection fromNode hr ih => exact ih
  | addConnection fromNodeId toNodeId label hr hop ih =>
    obtain ⟨_, fc, rest, cs, hrest, hcs, hshape⟩ := addConnection_eq_some hop
    rw [hshape]
    exact dTruthy_update_flowcharts ih
  | completeConnection toNode hr hop ih =>
    rename_i st0 st1
    cases hcip : st0.connectionInProgress with
    | none =>
      simp only [completeConnection, hcip, Option.some_inj] at hop
      rw [← hop]
      exact ih
    | some pc =>
      by_cases heq : pc.fromId = toNode.id
      · simp only [completeConnection, hcip, if_pos heq, Option.some_inj] at hop
        rw [← hop]
        exact ih
      · simp only [completeConnection, hcip, if_neg heq,
          Option.map_eq_some'] at hop
        obtain ⟨⟨sta, c⟩, hadd, hmap⟩ := hop
        obtain ⟨_, fc, rest, cs, hrest, hcs, hshape⟩ := addConnection_eq_some hadd
        rw [← hmap, hshape]
        exact dTruthy_update_flowcharts ih
  | updateConnectionLabel connectionId label hr hop ih =>
    obtain ⟨fc, rest, cs, hrest, hcs, hshape⟩ := withSec0Conns_eq_some hop
    rw [hshape]
    exact dTruthy_update_flowcharts ih
  | updateConnectionStyle connectionId style hr hop ih =>
    obtain ⟨fc, rest, cs, hrest, hcs, hshape⟩ := withSec0Conns_eq_some hop
    rw [hshape]
    exact dTruthy_update_flowcharts ih
  | updateConnectionStatus connectionId status hr hop ih =>
    obtain ⟨fc, rest, cs, hrest, hcs, hshape⟩ := withSec0Conns_eq_some hop
    rw [hshape]
    exact dTruthy_update_flowcharts ih
  | deleteConnection connectionId hr hop ih =>
    obtain ⟨fc, rest, cs, hrest, hcs, hshape⟩ := withSec0Conns_eq_some hop
    rw [hshape]
    exact dTruthy_update_flowcharts ih
  | updateDescription description hr ih => exact ih
  | updateGeneralNotes notes hr ih => exact ih
  | clearAll hr hop ih =>
    obtain ⟨fc, rest, hrest, hshape⟩ := clearAll_eq_some hop
    rw [hshape]
    exact dTruthy_update_flowcharts ih
  | loadFromJSON p hr ih => exact loadFromJSON_dTruthy p ih
  | exportToJSON now hr ih => exact ih

theorem nodesOf_data_congr {st1 st2 : EditorState}
    (h : st1.data.flowcharts = st2.data.flowcharts) : nodesOf st1 = nodesOf st2 := by
  unfold nodesOf getCurrentFlowchart
  rw [h]

theorem connsOf_data_congr {st1 st2 : EditorState}
    (h : st1.data.flowcharts = st2.data.flowcharts) : connsOf st1 = connsOf st2 := by
  unfold connsOf getCurrentFlowchart
  rw [h]

theorem questionsOf_data_congr {st1 st2 : EditorState}
    (h : st1.data.flowcharts = st2.data.flowcharts) :
    questionsOf st1 = questionsOf st2 := by
  unfold questionsOf getCurrentFlowchart
  rw [h]

/-- C2: from every reachable editor state, re-loading a just-exported payload
yields a diagram equal to the original up to the refreshed `timestamp` — in
particular the active section's nodes, connections and questions are equal by
value.  (The exported payload is a deep clone in the source; in this pure
embedding the clone is the value itself, so structural independence from the
live model is automatic.) -/
theorem C2_export_load_roundtrip (st : EditorState) (hreach : Reachable st)
    (now : String) :
    (loadFromJSON (exportToJSON st now).1 (exportToJSON st now).2).1.data =
      { st.data with timestamp := some now } ∧
    nodesOf (loadFromJSON (exportToJSON st now).1 (exportToJSON st now).2).1 =
      nodesOf st ∧
    connsOf (loadFromJSON (exportToJSON st now).1 (exportToJSON st now).2).1 =
      connsOf st ∧
    questionsOf
        (loadFromJSON (exportToJSON st now).1 (exportToJSON st now).2).1 =
      questionsOf st := by
  have hd : dTruthy st.data = true := reachable_dTruthy hreach
  have hpd : dTruthy (exportToJSON st now).2 = true := hd
  have hdata :
      (loadFromJSON (exportToJSON st now).1 (exportToJSON st now).2).1.data =
        { st.data with timestamp := some now } := by
    unfold loadFromJSON
    simp only [hpd, if_true]
    rw [updateIdCounters_data]
    rfl
  have hfl :
      (loadFromJSON (exportToJSON st now).1
        (exportToJSON st now).2).1.data.flowcharts = st.data.flowcharts := by
    rw [hdata]
  exact ⟨hdata, nodesOf_data_congr hfl, connsOf_data_congr hfl,
    questionsOf_data_congr hfl⟩

/-- Witness for C2: the round trip at the freshly constructed editor. -/
theorem C2_export_load_roundtrip_witness :
    (loadFromJSON (exportToJSON (initState ("t8")) ("t9")).1
      (exportToJSON (initState ("t8")) ("t9")).2).1.data =
      { (initState ("t8")).data with timestamp := some ("t9") } :=
  (C2_export_load_roundtrip (initState ("t8")) (Reachable.init ("t8")) ("t9")).1
